import Mathlib

/-!
Verification development for the program-structure-graph extractor of
`visualize_structures_3d.py` (functions `guess_type`, `find_python_files`,
`build_graph_from_file`, `build_graph`, lines 26-266).  The Python AST, the
networkx `nx.Graph` operations used by the code, and the five sequential
loops of `build_graph_from_file` are embedded shallowly below; each Lean
definition mirrors the corresponding piece of the source.

Modelling notes (each is justified at its definition):
* `nx.Graph` is an undirected graph with at most one edge per node pair;
  `add_edge` inserts missing endpoint nodes with an empty attribute dict and
  overwrites the attributes of an existing edge on the same (unordered) pair.
  `add_node` on an existing key merges the supplied keyword attributes into
  the node's attribute dict, leaving unsupplied keys untouched.
* `dir(__builtins__)` is modelled by the fixed list `builtinNames` (the
  script runs as `__main__`, where `__builtins__` is the builtins module).
* `ast.walk` is breadth-first: a queue seeded with the root, popping from the
  front and appending each popped node's children.
* printing diagnostics does not affect the graph; the parse-failure warnings
  (the only diagnostics a claim mentions) are modelled by `parse_warnings`.
-/

/-- Keys of the `TYPE_COLOR` dict (lines 10-24); `guess_type` and the
variable pass test membership in this key set. -/
def TYPE_COLOR : List String :=
  ["list", "dict", "set", "tuple", "class", "function", "int", "str",
   "float", "bool", "module", "import", "unknown"]

/-- Models `dir(__builtins__)` as evaluated at line 202 when the script runs
as `__main__` (the names of the CPython builtins module). -/
def builtinNames : List String :=
  ["ArithmeticError", "AssertionError", "AttributeError", "BaseException",
   "BaseExceptionGroup", "BlockingIOError", "BrokenPipeError", "BufferError",
   "BytesWarning", "ChildProcessError", "ConnectionAbortedError",
   "ConnectionError", "ConnectionRefusedError", "ConnectionResetError",
   "DeprecationWarning", "EOFError", "Ellipsis", "EncodingWarning",
   "EnvironmentError", "Exception", "ExceptionGroup", "False",
   "FileExistsError", "FileNotFoundError", "FloatingPointError",
   "FutureWarning", "GeneratorExit", "IOError", "ImportError",
   "ImportWarning", "IndentationError", "IndexError", "InterruptedError",
   "IsADirectoryError", "KeyError", "KeyboardInterrupt", "LookupError",
   "MemoryError", "ModuleNotFoundError", "NameError", "None",
   "NotADirectoryError", "NotImplemented", "NotImplementedError", "OSError",
   "OverflowError", "PendingDeprecationWarning", "PermissionError",
   "ProcessLookupError", "RecursionError", "ReferenceError",
   "ResourceWarning", "RuntimeError", "RuntimeWarning",
   "StopAsyncIteration", "StopIteration", "SyntaxError", "SyntaxWarning",
   "SystemError", "SystemExit", "TabError", "TimeoutError", "True",
   "TypeError", "UnboundLocalError", "UnicodeDecodeError",
   "UnicodeEncodeError", "UnicodeError", "UnicodeTranslateError",
   "UnicodeWarning", "UserWarning", "ValueError", "Warning",
   "ZeroDivisionError", "__build_class__", "__builtins__", "__debug__",
   "__doc__", "__import__", "__loader__", "__name__", "__package__",
   "__spec__", "abs", "aiter", "all", "anext", "any", "ascii", "bin",
   "bool", "breakpoint", "bytearray", "bytes", "callable", "chr",
   "classmethod", "compile", "complex", "copyright", "credits", "delattr",
   "dict", "dir", "divmod", "enumerate", "eval", "exec", "exit", "filter",
   "float", "format", "frozenset", "getattr", "globals", "hasattr", "hash",
   "help", "hex", "id", "input", "int", "isinstance", "issubclass", "iter",
   "len", "license", "list", "locals", "map", "max", "memoryview", "min",
   "next", "object", "oct", "open", "ord", "pow", "print", "property",
   "quit", "range", "repr", "reversed", "round", "set", "setattr", "slice",
   "sorted", "staticmethod", "str", "sum", "super", "tuple", "type",
   "vars", "zip"]

/-- A Python constant as it appears in an `ast.Constant` node produced by
`ast.parse`.  The string payloads of `floatV`, `bytesV` and `complexV` carry
the `ast.unparse` rendering of the constant (their numeric value is never
inspected by the code, only the runtime type name and the rendering). -/
inductive ConstVal
  | intV (n : Int)
  | strV (s : String)
  | floatV (rendering : String)
  | boolV (b : Bool)
  | noneV
  | bytesV (rendering : String)
  | complexV (rendering : String)
  | ellipsisV
deriving DecidableEq

/-- `type(node.value).__name__` for an `ast.Constant` (lines 32, 195). -/
def ConstVal.typeName : ConstVal → String
  | .intV _ => "int"
  | .strV _ => "str"
  | .floatV _ => "float"
  | .boolV _ => "bool"
  | .noneV => "NoneType"
  | .bytesV _ => "bytes"
  | .complexV _ => "complex"
  | .ellipsisV => "ellipsis"

/-- `ast.unparse` of a constant.  Strings are rendered with single quotes
(CPython's default); strings containing quotes or escapes are outside the
modelled fragment. -/
def ConstVal.render : ConstVal → String
  | .intV n => toString n
  | .strV s => "\x27" ++ s ++ "\x27"
  | .floatV r => r
  | .boolV true => "True"
  | .boolV false => "False"
  | .noneV => "None"
  | .bytesV r => r
  | .complexV r => r
  | .ellipsisV => "..."

/-- Python expressions, covering every shape `build_graph_from_file` and
`guess_type` distinguish.  `otherE` stands for any other expression shape
and carries its `ast.unparse` rendering; such nodes have no children that
the graph builder reacts to. -/
inductive Expr
  | name (id : String)
  | const (v : ConstVal)
  | listE (elts : List Expr)
  | dictE (items : List (Expr × Expr))
  | setE (elts : List Expr)
  | tupleE (elts : List Expr)
  | call (func : Expr) (args : List Expr)
  | attr (value : Expr) (attrName : String)
  | otherE (rendering : String)

/-- One `ast.alias` of an import statement: `name` with optional `asname`. -/
structure ImportItem where
  name : String
  asname : Option String
deriving DecidableEq

/-- Python statements, covering every shape the five loops of
`build_graph_from_file` distinguish.  Docstrings are carried as the result
of `ast.get_docstring`; `lineno`/`endLineno` model the 1-based
`lineno`/`end_lineno` attributes.  `otherS` stands for statements the
builder ignores and that contain no graph-relevant descendants. -/
inductive Stmt
  | importS (names : List ImportItem)
  | importFrom (module : Option String) (names : List ImportItem)
  | classDef (name : String) (bases : List Expr) (body : List Stmt)
      (docstring : String) (lineno endLineno : Nat)
  | funcDef (name : String) (params : List String) (body : List Stmt)
      (docstring : String) (lineno endLineno : Nat)
  | assign (targets : List Expr) (value : Expr)
  | annAssign (target : Expr) ( annotation : Expr) (value : Option Expr)
  | exprS (value : Expr)
  | otherS

mutual
/-- Size of an expression, used as the termination measure of `ast.walk`. -/
def esize : Expr → Nat
  | .name _ => 1
  | .const _ => 1
  | .listE es => 1 + esizes es
  | .dictE items => 1 + isize items
  | .setE es => 1 + esizes es
  | .tupleE es => 1 + esizes es
  | .call f args => 1 + esize f + esizes args
  | .attr v _ => 1 + esize v
  | .otherE _ => 1

def esizes : List Expr → Nat
  | [] => 0
  | e :: es => esize e + esizes es

def isize : List (Expr × Expr) → Nat
  | [] => 0
  | (k, v) :: r => esize k + esize v + isize r
end

mutual
/-- Size of a statement, used as the termination measure of `ast.walk`. -/
def ssize : Stmt → Nat
  | .importS _ => 1
  | .importFrom _ _ => 1
  | .classDef _ bases body _ _ _ => 1 + esizes bases + ssizes body
  | .funcDef _ _ body _ _ _ => 1 + ssizes body
  | .assign ts v => 1 + esizes ts + esize v
  | .annAssign t ann v? =>
      1 + esize t + esize ann + (match v? with | some v => esize v | none => 0)
  | .exprS e => 1 + esize e
  | .otherS => 1

def ssizes : List Stmt → Nat
  | [] => 0
  | s :: ss => ssize s + ssizes ss
end

mutual
/-- `ast.unparse` on the embedded expression fragment (used at lines 177,
197, 204, 235). -/
def unparse : Expr → String
  | .name id => id
  | .const v => v.render
  | .listE es => "[" ++ unparseSeq es ++ "]"
  | .dictE items => "\x7b" ++ unparseItems items ++ "\x7d"
  | .setE es => "\x7b" ++ unparseSeq es ++ "\x7d"
  | .tupleE es => "(" ++ unparseTuple es ++ ")"
  | .call f args => unparse f ++ "(" ++ unparseSeq args ++ ")"
  | .attr v a => unparse v ++ "." ++ a
  | .otherE r => r

def unparseSeq : List Expr → String
  | [] => ""
  | [e] => unparse e
  | e :: es => unparse e ++ ", " ++ unparseSeq es

/-- Tuple interior: a one-element tuple renders with a trailing comma. -/
def unparseTuple : List Expr → String
  | [] => ""
  | [e] => unparse e ++ ","
  | e :: es => unparse e ++ ", " ++ unparseSeq es

def unparseItems : List (Expr × Expr) → String
  | [] => ""
  | [(k, v)] => unparse k ++ ": " ++ unparse v
  | (k, v) :: r => unparse k ++ ": " ++ unparse v ++ ", " ++ unparseItems r
end

/-- `str.lower()`, as a character map (adequate for the ASCII identifiers
the heuristic is aimed at). -/
def strToLower (s : String) : String :=
  ⟨s.data.map Char.toLower⟩

/-- Python slicing `s[:n]`, as a character-list prefix. -/
def strTake (s : String) (n : Nat) : String :=
  ⟨s.data.take n⟩

/-- `s.replace('()', '')`: drop the non-overlapping occurrences of `()`,
scanning left to right. -/
def removeParensCore : List Char → List Char
  | [] => []
  | '(' :: ')' :: rest => removeParensCore rest
  | c :: rest => c :: removeParensCore rest

def strReplaceParens (s : String) : String :=
  ⟨removeParensCore s.data⟩

/-- `guess_type` (lines 26-39), translated clause by clause. -/
def guess_type : Expr → String
  | .listE _ => "list"
  | .dictE _ => "dict"
  | .setE _ => "set"
  | .tupleE _ => "tuple"
  | .const v =>
      let t := v.typeName
      if TYPE_COLOR.contains t then t else "unknown"
  | .call f _ =>
      match f with
      | .name id =>
          let nm := strToLower id
          if TYPE_COLOR.contains nm then nm else "unknown"
      | _ => "unknown"
  | _ => "unknown"

/-- `os.path.basename` (line 60): the longest suffix containing no slash. -/
def basenameCore : List Char → List Char → List Char
  | [], acc => acc.reverse
  | c :: cs, acc =>
      if c = '/' then basenameCore cs [] else basenameCore cs (c :: acc)

def basename (p : String) : String :=
  ⟨basenameCore p.data []⟩

/-! ## The networkx graph model

`nx.Graph` stores per-node attribute dicts and, for each unordered pair of
nodes, at most one edge with its own attribute dict.  The code only ever
sets the attributes listed in `Attrs` on nodes and the single attribute
`relation` on edges, so attribute dicts are modelled by `Attrs` (a `none`
field is an absent key) and an edge by `(u, v, relation)` where `(u, v)`
records the endpoints as passed to the `add_edge` call that created it. -/

structure Attrs where
  kind : Option String := none
  label : Option String := none
  filePath : Option String := none
  docstring : Option String := none
  bases : Option (List String) := none
  module : Option String := none
  codeSnippet : Option String := none
  lineno : Option Nat := none
  params : Option (List String) := none
  usageExample : Option String := none
deriving DecidableEq

structure Graph where
  nodes : List (String × Attrs)
  edges : List (String × String × String)
deriving DecidableEq

def Graph.empty : Graph := ⟨[], []⟩

/-- Association-list lookup: the Python dict lookup on `G.nodes` (node
keys are unique by construction). -/
def lookupA : List (String × Attrs) → String → Option Attrs
  | [], _ => none
  | p :: ps, k => if p.1 == k then some p.2 else lookupA ps k

/-- `G.has_node(k)`. -/
def hasNode (G : Graph) (k : String) : Bool :=
  (lookupA G.nodes k).isSome

/-- Merge the keyword attributes of an `add_node` call into an existing
attribute dict: supplied (`some`) fields overwrite, absent fields keep the
old value. -/
def mergeAttrs (old new : Attrs) : Attrs where
  kind := new.kind.orElse fun _ => old.kind
  label := new.label.orElse fun _ => old.label
  filePath := new.filePath.orElse fun _ => old.filePath
  docstring := new.docstring.orElse fun _ => old.docstring
  bases := new.bases.orElse fun _ => old.bases
  module := new.module.orElse fun _ => old.module
  codeSnippet := new.codeSnippet.orElse fun _ => old.codeSnippet
  lineno := new.lineno.orElse fun _ => old.lineno
  params := new.params.orElse fun _ => old.params
  usageExample := new.usageExample.orElse fun _ => old.usageExample

/-- `G.add_node(k, **a)`: update the attribute dict of an existing node,
otherwise append a fresh node. -/
def addNode (G : Graph) (k : String) (a : Attrs) : Graph :=
  if hasNode G k then
    { G with nodes := G.nodes.map fun p => if p.1 == k then (p.1, mergeAttrs p.2 a) else p }
  else
    { G with nodes := G.nodes ++ [(k, a)] }

/-- `add_edge` inserts a missing endpoint as a node with an empty
attribute dict. -/
def ensureNode (G : Graph) (k : String) : Graph :=
  if hasNode G k then G else { G with nodes := G.nodes ++ [(k, {})] }

/-- Whether a stored edge connects the unordered pair of `u` and `v`. -/
def samePair (e : String × String × String) (u v : String) : Bool :=
  (e.1 == u && e.2.1 == v) || (e.1 == v && e.2.1 == u)

/-- `G.add_edge(u, v, relation=rel)`: missing endpoints are created; if an
edge on the same unordered pair exists its `relation` attribute is
overwritten (keeping the stored endpoint order), otherwise a new edge is
appended. -/
def addEdgeRaw (G : Graph) (u v rel : String) : Graph :=
  if G.edges.any (fun e => samePair e u v) then
    { G with edges := G.edges.map fun e => if samePair e u v then (e.1, e.2.1, rel) else e }
  else
    { G with edges := G.edges ++ [(u, v, rel)] }

def addEdge (G : Graph) (u v rel : String) : Graph :=
  addEdgeRaw (ensureNode (ensureNode G u) v) u v rel

/-- `G.nodes[k]` lookup (the node's attribute dict, if present). -/
def getAttrs (G : Graph) (k : String) : Option Attrs :=
  lookupA G.nodes k

/-- `G.nodes[k].get('kind')`. -/
def getKind (G : Graph) (k : String) : Option String :=
  (getAttrs G k).bind Attrs.kind

/-- `G.nodes[k]['params'] = ps` (line 212). -/
def setParams (G : Graph) (k : String) (ps : List String) : Graph :=
  { G with nodes := G.nodes.map fun p =>
      if p.1 == k then (p.1, { p.2 with params := some ps }) else p }

/-- `G.nodes[k]['usage_example'] = u` (line 214). -/
def setUsage (G : Graph) (k : String) (u : String) : Graph :=
  { G with nodes := G.nodes.map fun p =>
      if p.1 == k then (p.1, { p.2 with usageExample := some u }) else p }

/-! ## `ast.walk` -/

/-- A node of the Python AST, as yielded by `ast.walk`.  `ast.alias` and
`ast.arguments` children are omitted: no `isinstance` test in the code
matches them and they contain nothing the builder reacts to. -/
inductive PyNode
  | moduleN (body : List Stmt)
  | stmt (s : Stmt)
  | expr (e : Expr)

/-- `ast.iter_child_nodes`, in field order. -/
def children : PyNode → List PyNode
  | .moduleN body => body.map .stmt
  | .stmt (.importS _) => []
  | .stmt (.importFrom _ _) => []
  | .stmt (.classDef _ bases body _ _ _) => bases.map .expr ++ body.map .stmt
  | .stmt (.funcDef _ _ body _ _ _) => body.map .stmt
  | .stmt (.assign ts v) => ts.map .expr ++ [.expr v]
  | .stmt (.annAssign t ann v?) =>
      [.expr t, .expr ann] ++ (match v? with | some v => [.expr v] | none => [])
  | .stmt (.exprS e) => [.expr e]
  | .stmt .otherS => []
  | .expr (.name _) => []
  | .expr (.const _) => []
  | .expr (.listE es) => es.map .expr
  | .expr (.dictE items) => items.map (fun kv => .expr kv.1) ++ items.map (fun kv => .expr kv.2)
  | .expr (.setE es) => es.map .expr
  | .expr (.tupleE es) => es.map .expr
  | .expr (.call f args) => .expr f :: args.map .expr
  | .expr (.attr v _) => [.expr v]
  | .expr (.otherE _) => []

/-- Termination measure for `walk`. -/
def weight : PyNode → Nat
  | .moduleN body => 1 + ssizes body
  | .stmt s => ssize s
  | .expr e => esize e

def nodesW : List PyNode → Nat
  | [] => 0
  | n :: ns => weight n + nodesW ns

/-- Breadth-first traversal with explicit fuel (so that the kernel can
evaluate it); `walk` supplies adequate fuel and `walk_cons` below proves
the queue equation of `ast.walk`. -/
def walkFuel : Nat → List PyNode → List PyNode
  | _, [] => []
  | 0, l => l
  | fuel + 1, n :: rest => n :: walkFuel fuel (rest ++ children n)

/-- `ast.walk`: breadth-first traversal via a queue (pop front, append
children to the back, yield in pop order). -/
def walk (l : List PyNode) : List PyNode :=
  walkFuel (nodesW l) l

/-! ## `build_graph_from_file` (lines 50-251) -/

/-- A source file as handed to `build_graph_from_file`: its path, its
`splitlines()` result, and the outcome of `ast.parse` (`none` models the
exception caught at lines 52-58, which also covers unreadable files). -/
structure PyFile where
  path : String
  srcLines : List String
  parsed : Option (List Stmt)

/-- `alias.asname if alias.asname else alias.name`. -/
def ImportItem.bound (it : ImportItem) : String :=
  it.asname.getD it.name

/-- The `imported_names` set after the first loop (lines 68-87): bound names
of every `import` alias, and of every `from ... import` alias whose
statement has a non-empty `module`. -/
def importedNamesOf (ns : List PyNode) : List String :=
  ns.foldl (fun acc n =>
    match n with
    | .stmt (.importS items) => acc ++ items.map ImportItem.bound
    | .stmt (.importFrom (some _) items) => acc ++ items.map ImportItem.bound
    | _ => acc) []

/-- One iteration of the import loop (lines 71-87), graph effects only. -/
def importStep (mod : String) (G : Graph) (n : PyNode) : Graph :=
  match n with
  | .stmt (.importS items) =>
      items.foldl (fun G it =>
        let G := if hasNode G it.name then G
                 else addNode G it.name { kind := some "import", label := some it.name }
        addEdge G mod it.name "imports") G
  | .stmt (.importFrom (some m) _) =>
      let G := if hasNode G m then G
               else addNode G m { kind := some "import", label := some m }
      addEdge G mod m "imports"
  | _ => G

/-- `'\n'.join(source_lines[start:min(end, start + 20)])` (lines 102-104). -/
def snippet (srcLines : List String) (lineno endLineno : Nat) : String :=
  let start := lineno - 1
  let stop := min endLineno (start + 20)
  String.intercalate "\n" ((srcLines.drop start).take (stop - start))

/-- One iteration of the class loop (lines 91-140). -/
def classStep (mod : String) (srcLines : List String) (G : Graph) (n : PyNode) : Graph :=
  match n with
  | .stmt (.classDef cname basesE body doc lineno endLineno) =>
      let classLabel := mod ++ "::" ++ cname
      let bases := basesE.filterMap fun b =>
        match b with
        | .name id => some id
        | _ => none
      let G := addNode G classLabel
        { kind := some "class", label := some cname,
          docstring := some (strTake doc 100), bases := some bases,
          module := some mod,
          codeSnippet := some (snippet srcLines lineno endLineno),
          lineno := some lineno }
      let G := addEdge G mod classLabel "contains"
      let G := bases.foldl (fun G baseName =>
        let baseLabel := mod ++ "::" ++ baseName
        if hasNode G baseLabel then addEdge G baseLabel classLabel "inherits"
        else
          match G.nodes.find? (fun p =>
              p.2.label == some baseName && p.2.kind == some "class") with
          | some p => addEdge G p.1 classLabel "inherits"
          | none => G) G
      body.foldl (fun G st =>
        match st with
        | .funcDef fname params _ fdoc flineno fendLineno =>
            let fnLabel := classLabel ++ "." ++ fname ++ "()"
            let G := addNode G fnLabel
              { kind := some "function", label := some (fname ++ "()"),
                docstring := some (strTake fdoc 100), params := some params,
                module := some mod,
                codeSnippet := some (snippet srcLines flineno fendLineno),
                lineno := some flineno }
            addEdge G classLabel fnLabel "method"
        | _ => G) G
  | _ => G

/-- One iteration of the top-level-function loop (lines 143-161); the
duplicate case only prints a diagnostic. -/
def topFuncStep (mod : String) (srcLines : List String) (G : Graph) (st : Stmt) : Graph :=
  match st with
  | .funcDef fname params _ fdoc flineno fendLineno =>
      let funcLabel := mod ++ "::" ++ fname ++ "()"
      if hasNode G funcLabel then G
      else
        let G := addNode G funcLabel
          { kind := some "function", label := some (fname ++ "()"),
            docstring := some (strTake fdoc 100), params := some params,
            module := some mod,
            codeSnippet := some (snippet srcLines flineno fendLineno),
            lineno := some flineno }
        addEdge G mod funcLabel "contains"
  | _ => G

/-- Argument renderings (lines 190-197): a bare name renders as itself, a
constant as its runtime type name, anything else as its `ast.unparse`
rendering truncated to 30 characters. -/
def callArgsOf (args : List Expr) : List String :=
  args.foldl (fun acc a =>
    match a with
    | .name id => acc ++ [id]
    | .const v => acc ++ [v.typeName]
    | _ => acc ++ [strTake (unparse a) 30]) []

/-- `f"{func_name.replace('()', '')}({', '.join(call_args)})"` (lines 213, 217). -/
def usageOf (funcName : String) (callArgs : List String) : String :=
  strReplaceParens funcName ++ "(" ++ String.intercalate ", " callArgs ++ ")"

/-- The `ast.Call` handling of the third loop (lines 184-225). -/
def callStep (mod : String) (importedNames : List String) (G : Graph)
    (f : Expr) (args : List Expr) : Graph :=
  let callArgs := callArgsOf args
  let funcInfo : Option (String × Bool) :=
    match f with
    | .name id =>
        some (id ++ "()", importedNames.contains id || builtinNames.contains id)
    | .attr v a => some (unparse (.attr v a) ++ "()", true)
    | _ => none
  match funcInfo with
  | none => G
  | some (funcName, isBuiltin) =>
      let G :=
        if hasNode G funcName then
          if !callArgs.isEmpty && getKind G funcName == some "builtin-function" then
            let G := if (getAttrs G funcName).bind Attrs.params == none
                     then setParams G funcName callArgs else G
            setUsage G funcName (usageOf funcName callArgs)
          else G
        else if isBuiltin then
          let usage := if !callArgs.isEmpty then usageOf funcName callArgs else funcName
          let G := addNode G funcName
            { kind := some "builtin-function", label := some funcName,
              params := some callArgs, usageExample := some usage }
          addEdge G mod funcName "calls"
        else G
      args.foldl (fun G a =>
        match a with
        | .name id => if hasNode G id then addEdge G id funcName "arg" else G
        | _ => G) G

/-- One iteration of the variables-and-calls loop (lines 164-225). -/
def varsCallsStep (mod : String) (importedNames : List String)
    (G : Graph) (n : PyNode) : Graph :=
  match n with
  | .stmt (.assign targets value) =>
      let valType := guess_type value
      targets.foldl (fun G t =>
        match t with
        | .name id =>
            let varLabel := mod ++ "::" ++ id
            let G := addNode G varLabel
              { kind := some valType, label := some id, module := some mod }
            addEdge G mod varLabel "var"
        | _ => G) G
  | .stmt (.annAssign (.name id) annotation value?) =>
      let ann := unparse annotation
      let valType :=
        match value? with
        | some v => guess_type v
        | none => ann
      let kind :=
        if TYPE_COLOR.contains valType then valType
        else if TYPE_COLOR.contains ann then ann else "unknown"
      let varLabel := mod ++ "::" ++ id
      let G := addNode G varLabel
        { kind := some kind, label := some id, module := some mod }
      addEdge G mod varLabel "var"
  | .expr (.call f args) => callStep mod importedNames G f args
  | _ => G

/-- One iteration of the literal-expansion loop (lines 228-251). -/
def literalStep (mod : String) (G : Graph) (n : PyNode) : Graph :=
  match n with
  | .stmt (.assign targets (.dictE items)) =>
      targets.foldl (fun G t =>
        match t with
        | .name parent =>
            let parentLabel := mod ++ "::" ++ parent
            items.foldl (fun G kv =>
              let kLabel := unparse kv.1
              let vType := guess_type kv.2
              let childName := parentLabel ++ "." ++ kLabel
              let G := addNode G childName
                { kind := some vType, label := some (parent ++ "." ++ kLabel),
                  module := some mod }
              if hasNode G parentLabel then addEdge G parentLabel childName "dict-item"
              else G) G
        | _ => G) G
  | .stmt (.assign targets value) =>
      let elts? : Option (List Expr) :=
        match value with
        | .listE es => some es
        | .setE es => some es
        | .tupleE es => some es
        | _ => none
      match elts? with
      | none => G
      | some elts =>
          targets.foldl (fun G t =>
            match t with
            | .name parent =>
                let parentLabel := mod ++ "::" ++ parent
                (elts.enum.foldl (fun G p =>
                  let vType := guess_type p.2
                  let childName := parentLabel ++ "[" ++ toString p.1 ++ "]"
                  let G := addNode G childName
                    { kind := some vType,
                      label := some (parent ++ "[" ++ toString p.1 ++ "]"),
                      module := some mod }
                  if hasNode G parentLabel then addEdge G parentLabel childName "seq-item"
                  else G) G)
            | _ => G) G
  | _ => G

/-- The per-item body of the dict-literal expansion fold (lines 231-239),
as a named function: `pL` is the parent variable's scoped key, `parent` its
bare label and `mod` the module key. -/
def dictChildStep (pL parent mod : String) (G : Graph) (kv : Expr × Expr) : Graph :=
  let kLabel := unparse kv.1
  let vType := guess_type kv.2
  let childName := pL ++ "." ++ kLabel
  let G := addNode G childName
    { kind := some vType, label := some (parent ++ "." ++ kLabel),
      module := some mod }
  if hasNode G pL then addEdge G pL childName "dict-item"
  else G

/-- `build_graph_from_file` (lines 50-251), graph effects only: on a parse
failure the graph is returned unchanged (the warning is modelled by
`parse_warnings`); otherwise the module node is ensured and the five loops
run in order over the `ast.walk` sequence (the top-level-function loop over
`tree.body` only). -/
def build_graph_from_file (f : PyFile) (G : Graph) : Graph :=
  match f.parsed with
  | none => G
  | some body =>
      let moduleName := basename f.path
      let G := if hasNode G moduleName then G
               else addNode G moduleName
                 { kind := some "module", label := some moduleName,
                   filePath := some f.path }
      let ws := walk [.moduleN body]
      let importedNames := importedNamesOf ws
      let G := ws.foldl (importStep moduleName) G
      let G := ws.foldl (classStep moduleName f.srcLines) G
      let G := body.foldl (topFuncStep moduleName f.srcLines) G
      let G := ws.foldl (varsCallsStep moduleName importedNames) G
      let G := ws.foldl (literalStep moduleName) G
      G

/-- `build_graph` (lines 253-266) applied to an already-discovered file
list: a fresh graph folded through `build_graph_from_file` (an empty file
list yields the empty graph, as in the early return at lines 258-260). -/
def build_graph (files : List PyFile) : Graph :=
  files.foldl (fun G f => build_graph_from_file f G) Graph.empty

/-- The parse-failure diagnostics printed at line 57, one per file whose
`ast.parse` raised (the exception text is not modelled). -/
def parse_warnings (files : List PyFile) : List String :=
  files.filterMap fun f =>
    match f.parsed with
    | none => some ("Warning: Could not parse " ++ f.path)
    | some _ => none

/-! ## `find_python_files` (lines 41-48) -/

/-- A filesystem subtree; directory entries are listed in the order the
operating system enumerates them (`os.scandir` order), which is the order
`Path.rglob` visits them in. -/
inductive FSTree
  | file (name : String)
  | dir (name : String) (entries : List FSTree)

def FSTree.entryName : FSTree → String
  | .file n => n
  | .dir n _ => n

def FSTree.isDir : FSTree → Bool
  | .file _ => false
  | .dir _ _ => true

/-- `Path(name).suffix == '.py'`: the name ends in `.py` with the dot not
in position 0 (so the name is longer than `.py` itself, matching
`pathlib`'s suffix rule, under which `.py` itself has no suffix). -/
def hasPySuffix (n : String) : Bool :=
  match n.data.reverse with
  | 'y' :: 'p' :: '.' :: _ :: _ => true
  | _ => false

mutual
/-- The `Path.rglob('*.py')` contribution of one directory entry whose
parent directory sits at path `pfx`: nothing for a plain file (its match,
if any, is emitted by the parent), and for a subdirectory `n` its own
matching entries first (in enumeration order; entries named `*.py` of any
type are matched, as `rglob` matches directories too) followed by the
deeper matches, depth-first.  Together with the parent's own matches this
reproduces `rglob`'s order: each directory's matches in enumeration order,
directories visited depth-first. -/
def rglobEntry (pfx : String) : FSTree → List String
  | .file _ => []
  | .dir n es =>
      (es.filter fun e => hasPySuffix e.entryName).map
          (fun e => pfx ++ "/" ++ n ++ "/" ++ e.entryName)
        ++ rglobSub (pfx ++ "/" ++ n) es

def rglobSub (pfx : String) : List FSTree → List String
  | [] => []
  | e :: rest => rglobEntry pfx e ++ rglobSub pfx rest
end

/-- `find_python_files` (lines 41-48): `t` is the filesystem object at
path `p`.  A single file is returned iff its suffix is `.py`; a directory
yields its recursive `rglob` matches (its own matching entries in
enumeration order, then each subdirectory depth-first); anything else
yields `[]`. -/
def find_python_files (t : FSTree) (p : String) : List String :=
  match t with
  | .file n => if hasPySuffix n then [p] else []
  | .dir _ es =>
      (es.filter fun e => hasPySuffix e.entryName).map
          (fun e => p ++ "/" ++ e.entryName)
        ++ rglobSub p es

mutual
/-- Size of a filesystem tree (an induction measure). -/
def fsize : FSTree → Nat
  | .file _ => 1
  | .dir _ es => 1 + fssize es

def fssize : List FSTree → Nat
  | [] => 0
  | e :: es => fsize e + fssize es
end

/-! ## Reference definitions taken from the specification's wording -/

/-- The recognized scalar kind names of spec section 4.3 step 2. -/
def scalarKinds : List String := ["int", "str", "float", "bool"]

/-- The recognized container/scalar kind names (spec section 4.3 step 3). -/
def containerScalarKinds : List String :=
  ["list", "dict", "set", "tuple", "int", "str", "float", "bool"]

/-- The four-step first-match classifier exactly as claim C3 words it:
(1) literal container syntax; (2) scalar constant whose runtime type name is
one of int/str/float/bool; (3) call whose callee is a bare identifier
case-insensitively matching a recognized container/scalar kind name;
(4) anything else is unknown. -/
def classify_spec : Expr → String
  | .listE _ => "list"
  | .dictE _ => "dict"
  | .setE _ => "set"
  | .tupleE _ => "tuple"
  | .const v =>
      let t := v.typeName
      if scalarKinds.contains t then t else "unknown"
  | .call (.name id) _ =>
      let nm := strToLower id
      if containerScalarKinds.contains nm then nm else "unknown"
  | _ => "unknown"

/-- The reference classifier with step 3 amended — as the code's
counterexample forces — to recognize every key of the kind/color table
(`class`, `function`, `module`, `import` and `unknown` included). -/
def classify_spec_amended : Expr → String
  | .listE _ => "list"
  | .dictE _ => "dict"
  | .setE _ => "set"
  | .tupleE _ => "tuple"
  | .const v =>
      let t := v.typeName
      if scalarKinds.contains t then t else "unknown"
  | .call (.name id) _ =>
      let nm := strToLower id
      if TYPE_COLOR.contains nm then nm else "unknown"
  | _ => "unknown"

/-- Claim C1's invariant at the graph level: every edge references only
keys that exist as nodes. -/
def wellFormedB (G : Graph) : Bool :=
  G.edges.all fun e => hasNode G e.1 && hasNode G e.2.1

/-- At most one stored edge per unordered node pair (the `nx.Graph`
representation invariant; claim C4's amended statement is relative to
it). -/
def uniquePairsB : List (String × String × String) → Bool
  | [] => true
  | e :: es => es.all (fun e2 => !samePair e2 e.1 e.2.1) && uniquePairsB es

/-- Number of stored edges between the unordered pair of `u` and `v`. -/
def countPair (G : Graph) (u v : String) : Nat :=
  (G.edges.filter fun e => samePair e u v).length

/-- The relation tag on the (unique) edge between `u` and `v`, if any. -/
def pairRel (G : Graph) (u v : String) : Option String :=
  (G.edges.find? fun e => samePair e u v).map fun e => e.2.2

/-- Spec-side membership relation for claim C5: `PyEntry t p q` holds iff
`q` is the path of an entry with a `.py` suffix somewhere in directory tree
`t` (rooted at path `p`). -/
inductive PyEntry : FSTree → String → String → Prop
  | here {nm : String} {entries : List FSTree} {p : String} (e : FSTree)
      (hmem : e ∈ entries) (hpy : hasPySuffix e.entryName = true) :
      PyEntry (.dir nm entries) p (p ++ "/" ++ e.entryName)
  | deeper {nm : String} {entries : List FSTree} {p q : String}
      (m : String) (es : List FSTree)
      (hmem : FSTree.dir m es ∈ entries)
      (hsub : PyEntry (.dir m es) (p ++ "/" ++ m) q) :
      PyEntry (.dir nm entries) p q

mutual
/-- No-call-anywhere predicate on expressions: the walked descendants of
such an expression trigger nothing in the variables-and-calls loop. -/
def callFree : Expr → Bool
  | .name _ => true
  | .const _ => true
  | .listE es => callFreeList es
  | .dictE items => callFreeItems items
  | .setE es => callFreeList es
  | .tupleE es => callFreeList es
  | .call _ _ => false
  | .attr v _ => callFree v
  | .otherE _ => true

def callFreeList : List Expr → Bool
  | [] => true
  | e :: es => callFree e && callFreeList es

def callFreeItems : List (Expr × Expr) → Bool
  | [] => true
  | kv :: r => callFree kv.1 && callFree kv.2 && callFreeItems r
end

/-- A plain (identifier-shaped) name: nonempty, alphanumeric or
underscore. -/
def isPlainName (s : String) : Bool :=
  !s.isEmpty && s.data.all fun c => c.isAlphanum || c == '_'

/-- Hereditarily call-free expression nodes: the property `walk_forall`
propagates through the queue for the variables-and-calls pass. -/
def FreeExprNode (n : PyNode) : Prop :=
  ∃ e, n = PyNode.expr e ∧ callFree e = true

/-- Preservation of a variable node `k` and of its `(mod, k, _)` edges by a
graph transformation: attributes are kept, node existence persists and the
edges survive. -/
def PreservesVar (mod k : String) (G G' : Graph) : Prop :=
  (hasNode G k = true → getAttrs G' k = getAttrs G k)
  ∧ (hasNode G k = true → hasNode G' k = true)
  ∧ ∀ rel, (mod, k, rel) ∈ G.edges → (mod, k, rel) ∈ G'.edges

/-! ## Concrete input files used by individual claims -/

/-- C1's counterexample file: `import os` followed by the call `foo(os)`
(`foo` neither defined, imported nor a Python builtin). -/
def c1File : PyFile :=
  ⟨"m.py", [], some [.importS [⟨"os", none⟩],
                     .exprS (.call (.name "foo") [.name "os"])]⟩

/-- C4's counterexample file: `class x: pass` followed by `x = 1`; both the
`contains` edge and the `var` edge connect the pair (`m.py`, `m.py::x`). -/
def c4File : PyFile :=
  ⟨"m.py", [], some [.classDef "x" [] [] "" 1 1,
                     .assign [.name "x"] (.const (.intV 1))]⟩

/-- C5's counterexample directory: the operating system enumerates `b.py`
before `a.py`. -/
def c5Tree : FSTree := .dir "d" [.file "b.py", .file "a.py"]

/-- A well-formed sibling file used by C6's witness. -/
def c6GoodFile : PyFile :=
  ⟨"ok.py", [], some [.assign [.name "x"] (.const (.intV 1))]⟩

/-- A file whose `ast.parse` raises, used by C6's witness. -/
def c6BadFile : PyFile := ⟨"bad.py", [], none⟩

/-- C7's input family: `class A: ...` followed by `class B(A): ...`. -/
def c7File (A B : String) : PyFile :=
  ⟨"m.py", [], some [.classDef A [] [] "" 1 1,
                     .classDef B [.name A] [] "" 2 2]⟩

/-- C8's input family: `d = {k1: v1, ...}` (one dict-literal assignment). -/
def c8File (kvs : List (Expr × Expr)) : PyFile :=
  ⟨"m.py", [], some [.assign [.name "d"] (.dictE kvs)]⟩

/-- C9's input family: `x1 = x2 = v1` (one assignment, two plain-name
targets) followed by `y = v2`. -/
def c9File (x1 x2 y : String) (v1 v2 : Expr) : PyFile :=
  ⟨"m.py", [], some [.assign [.name x1, .name x2] v1,
                     .assign [.name y] v2]⟩

/-- C10's first file (at an arbitrary path): `import os`. -/
def c10FileA (p : String) : PyFile := ⟨p, [], some [.importS [⟨"os", none⟩]]⟩

/-- C10's second file (at an arbitrary path): `x = 1`. -/
def c10FileB (p : String) : PyFile :=
  ⟨p, [], some [.assign [.name "x"] (.const (.intV 1))]⟩
/-! ## General lemmas -/

theorem nodesW_append (l r : List PyNode) :
    nodesW (l ++ r) = nodesW l + nodesW r := by
  induction l with
  | nil => simp [nodesW]
  | cons n ns ih => simp [nodesW, ih]; omega

theorem nodesW_map_expr (es : List Expr) :
    nodesW (es.map PyNode.expr) = esizes es := by
  induction es with
  | nil => simp [nodesW, esizes]
  | cons e es ih => simp [nodesW, esizes, weight, ih]

theorem nodesW_map_stmt (ss : List Stmt) :
    nodesW (ss.map PyNode.stmt) = ssizes ss := by
  induction ss with
  | nil => simp [nodesW, ssizes]
  | cons s ss ih => simp [nodesW, ssizes, weight, ih]

theorem nodesW_map_pair (items : List (Expr × Expr)) :
    nodesW (items.map fun kv => PyNode.expr kv.1)
      + nodesW (items.map fun kv => PyNode.expr kv.2) = isize items := by
  induction items with
  | nil => simp [nodesW, isize]
  | cons kv r ih =>
      cases kv with
      | mk k v => simp [nodesW, isize, weight]; omega

theorem esize_pos (e : Expr) : 0 < esize e := by
  cases e <;> simp [esize]

theorem ssize_pos (s : Stmt) : 0 < ssize s := by
  cases s <;> simp [ssize]

theorem childrenW_lt (n : PyNode) : nodesW (children n) < weight n := by
  cases n with
  | moduleN body => simp [children, weight, nodesW_map_stmt]
  | stmt s =>
      cases s with
      | importS ns => simp [children, weight, nodesW, ssize]
      | importFrom m ns => simp [children, weight, nodesW, ssize]
      | classDef nm bases body d l el =>
          simp [children, weight, ssize, nodesW_append, nodesW_map_expr, nodesW_map_stmt]
      | funcDef nm ps body d l el =>
          simp [children, weight, ssize, nodesW_map_stmt]
      | assign ts v =>
          simp [children, weight, ssize, nodesW_append, nodesW_map_expr, nodesW]
      | annAssign t ann v? =>
          cases v? with
          | some v =>
              simp only [children, weight, ssize, nodesW_append, nodesW]
              omega
          | none =>
              simp only [children, weight, ssize, nodesW_append, nodesW]
              omega
      | exprS e => simp [children, weight, ssize, nodesW]
      | otherS => simp [children, weight, ssize, nodesW]
  | expr e =>
      cases e with
      | name id => simp [children, weight, nodesW, esize]
      | const v => simp [children, weight, nodesW, esize]
      | listE es => simp [children, weight, esize, nodesW_map_expr]
      | dictE items =>
          have h1 := nodesW_map_pair items
          simp only [children, weight, esize, nodesW_append]
          omega
      | setE es => simp [children, weight, esize, nodesW_map_expr]
      | tupleE es => simp [children, weight, esize, nodesW_map_expr]
      | call f args =>
          simp [children, weight, esize, nodesW, nodesW_map_expr]
      | attr v a => simp [children, weight, esize, nodesW]
      | otherE r => simp [children, weight, nodesW, esize]


theorem weight_pos (n : PyNode) : 0 < weight n := by
  cases n with
  | moduleN body => simp [weight]
  | stmt s => exact ssize_pos s
  | expr e => exact esize_pos e

theorem nodesW_eq_zero {l : List PyNode} (h : nodesW l = 0) : l = [] := by
  cases l with
  | nil => rfl
  | cons n ns =>
      exfalso
      have := weight_pos n
      simp [nodesW] at h
      omega

theorem walkFuel_congr :
    ∀ (f₁ : Nat) (l : List PyNode) (f₂ : Nat), nodesW l ≤ f₁ → nodesW l ≤ f₂ →
      walkFuel f₁ l = walkFuel f₂ l := by
  intro f₁
  induction f₁ with
  | zero =>
      intro l f₂ h₁ _
      have hl : l = [] := nodesW_eq_zero (Nat.le_antisymm h₁ (Nat.zero_le _))
      subst hl
      cases f₂ <;> rfl
  | succ f ih =>
      intro l f₂ h₁ h₂
      cases l with
      | nil => cases f₂ <;> rfl
      | cons n rest =>
          have hw := weight_pos n
          have hwl : nodesW (n :: rest) = weight n + nodesW rest := rfl
          cases f₂ with
          | zero => omega
          | succ f₂ =>
              have hlt : nodesW (rest ++ children n) < nodesW (n :: rest) := by
                have := childrenW_lt n
                simp [nodesW_append, hwl]
                omega
              simp only [walkFuel]
              rw [ih (rest ++ children n) f₂ (by omega) (by omega)]

/-- `walk` satisfies the defining queue equation of `ast.walk`. -/
theorem walk_cons (n : PyNode) (rest : List PyNode) :
    walk (n :: rest) = n :: walk (rest ++ children n) := by
  have hw := weight_pos n
  have hwl : nodesW (n :: rest) = weight n + nodesW rest := rfl
  have hlt : nodesW (rest ++ children n) < nodesW (n :: rest) := by
    have := childrenW_lt n
    simp [nodesW_append, hwl]
    omega
  unfold walk
  rw [hwl]
  have hpos : weight n + nodesW rest = (weight n + nodesW rest - 1) + 1 := by omega
  rw [hpos]
  simp only [walkFuel]
  rw [walkFuel_congr (weight n + nodesW rest - 1) (rest ++ children n) (nodesW (rest ++ children n)) (by omega) (Nat.le_refl _)]

theorem walk_nil : walk [] = [] := rfl


theorem str_beq_self (s : String) : (s == s) = true := beq_self_eq_true s

theorem str_beq_false {s t : String} (h : s ≠ t) : (s == t) = false := by
  cases hb : (s == t) with
  | false => rfl
  | true => exact absurd (beq_iff_eq.mp hb) h

theorem ne_of_length_ne {s t : String} (h : s.length ≠ t.length) : s ≠ t := by
  intro he
  exact h (he ▸ rfl)

theorem append_cancel_left_str {p s t : String} (h : p ++ s = p ++ t) : s = t := by
  have h2 := congrArg String.data h
  simp [String.data_append] at h2
  exact String.ext h2

theorem ne_append_of_ne {p s t : String} (h : s ≠ t) : p ++ s ≠ p ++ t :=
  fun he => h (append_cancel_left_str he)

theorem mem_data_append_left {s t : String} {c : Char} (h : c ∈ s.data) :
    c ∈ (s ++ t).data := by
  rw [String.data_append]
  exact List.mem_append_left _ h

theorem mem_data_append_right {s t : String} {c : Char} (h : c ∈ t.data) :
    c ∈ (s ++ t).data := by
  rw [String.data_append]
  exact List.mem_append_right _ h

theorem plain_no_dot {y : String} (h : isPlainName y = true) : '.' ∉ y.data := by
  intro hmem
  simp [isPlainName, List.all_eq_true] at h
  have := h.2 '.' hmem
  simp at this

theorem plain_no_bracket {y : String} (h : isPlainName y = true) : '[' ∉ y.data := by
  intro hmem
  simp [isPlainName, List.all_eq_true] at h
  have := h.2 '[' hmem
  simp at this

theorem lookupA_append (l₁ l₂ : List (String × Attrs)) (k : String) :
    lookupA (l₁ ++ l₂) k =
      match lookupA l₁ k with
      | some a => some a
      | none => lookupA l₂ k := by
  induction l₁ with
  | nil => simp [lookupA]
  | cons p ps ih =>
      simp only [List.cons_append, lookupA]
      split
      · rfl
      · exact ih

theorem lookupA_map_update_other (l : List (String × Attrs)) (k k' : String)
    (a : Attrs) (h : k' ≠ k) :
    lookupA (l.map fun p => if p.1 == k then (p.1, mergeAttrs p.2 a) else p) k'
      = lookupA l k' := by
  induction l with
  | nil => rfl
  | cons p ps ih =>
      simp only [List.map_cons, lookupA]
      cases hpk : (p.1 == k) with
      | true =>
          have hk2 : (p.1 == k') = false := by
            rw [beq_iff_eq] at hpk
            exact str_beq_false (by rw [hpk]; exact fun he => h he.symm)
          simp only [hpk, if_true, hk2, Bool.false_eq_true, if_false]
          exact ih
      | false =>
          simp only [hpk, Bool.false_eq_true, if_false]
          split
          · rfl
          · exact ih

theorem lookupA_map_update_self (l : List (String × Attrs)) (k : String)
    (a : Attrs) :
    lookupA (l.map fun p => if p.1 == k then (p.1, mergeAttrs p.2 a) else p) k
      = (lookupA l k).map fun old => mergeAttrs old a := by
  induction l with
  | nil => rfl
  | cons p ps ih =>
      simp only [List.map_cons, lookupA]
      cases hpk : (p.1 == k) with
      | true => simp [hpk]
      | false =>
          simp only [hpk, Bool.false_eq_true, if_false]
          exact ih

theorem lookupA_none_of_hasNode_false {G : Graph} {k : String}
    (h : hasNode G k = false) : lookupA G.nodes k = none := by
  unfold hasNode at h
  cases hl : lookupA G.nodes k with
  | none => rfl
  | some a => rw [hl] at h; cases h

theorem edges_addNode (G : Graph) (k : String) (a : Attrs) :
    (addNode G k a).edges = G.edges := by
  unfold addNode
  split <;> rfl

theorem edges_ensureNode (G : Graph) (k : String) :
    (ensureNode G k).edges = G.edges := by
  unfold ensureNode
  split <;> rfl

theorem getAttrs_addNode_other {G : Graph} {k k' : String} (a : Attrs)
    (h : k' ≠ k) : getAttrs (addNode G k a) k' = getAttrs G k' := by
  unfold addNode getAttrs
  split
  · exact lookupA_map_update_other G.nodes k k' a h
  · rw [lookupA_append]
    cases hl : lookupA G.nodes k' with
    | some b => rfl
    | none =>
        simp only [lookupA]
        rw [str_beq_false (fun he => h he.symm)]
        rfl

theorem getAttrs_addNode_fresh {G : Graph} {k : String} (a : Attrs)
    (h : hasNode G k = false) : getAttrs (addNode G k a) k = some a := by
  unfold addNode getAttrs
  rw [h]
  simp only [Bool.false_eq_true, if_false]
  rw [lookupA_append, lookupA_none_of_hasNode_false h]
  simp [lookupA]

theorem getAttrs_addNode_self {G : Graph} {k : String} (a : Attrs) :
    getAttrs (addNode G k a) k = match getAttrs G k with
      | some old => some (mergeAttrs old a)
      | none => some a := by
  cases hG : hasNode G k with
  | false =>
      rw [getAttrs_addNode_fresh a hG]
      unfold getAttrs
      rw [lookupA_none_of_hasNode_false hG]
  | true =>
      unfold addNode getAttrs
      rw [hG]
      simp only [if_true]
      rw [lookupA_map_update_self]
      unfold hasNode at hG
      cases hl : lookupA G.nodes k with
      | none => rw [hl] at hG; cases hG
      | some old => simp

theorem hasNode_iff_getAttrs {G : Graph} {k : String} :
    hasNode G k = (getAttrs G k).isSome := rfl

theorem hasNode_addNode_self (G : Graph) (k : String) (a : Attrs) :
    hasNode (addNode G k a) k = true := by
  rw [hasNode_iff_getAttrs, getAttrs_addNode_self]
  split <;> rfl

theorem hasNode_addNode_other {G : Graph} {k k' : String} (a : Attrs)
    (h : k' ≠ k) : hasNode (addNode G k a) k' = hasNode G k' := by
  rw [hasNode_iff_getAttrs, getAttrs_addNode_other a h]
  rfl

theorem hasNode_addNode_mono {G : Graph} {k' : String} (k : String) (a : Attrs)
    (h : hasNode G k' = true) : hasNode (addNode G k a) k' = true := by
  by_cases hk : k' = k
  · subst hk; exact hasNode_addNode_self G k' a
  · rw [hasNode_addNode_other a hk]; exact h

theorem getAttrs_ensureNode_other {G : Graph} {k k' : String}
    (h : k' ≠ k) : getAttrs (ensureNode G k) k' = getAttrs G k' := by
  unfold ensureNode getAttrs
  split
  · rfl
  · rw [lookupA_append]
    cases hl : lookupA G.nodes k' with
    | some b => rfl
    | none =>
        simp only [lookupA]
        rw [str_beq_false (fun he => h he.symm)]
        rfl

theorem getAttrs_ensureNode_present {G : Graph} {k' : String} (k : String)
    (h : hasNode G k' = true) : getAttrs (ensureNode G k) k' = getAttrs G k' := by
  by_cases hk : k' = k
  · subst hk
    unfold ensureNode getAttrs
    rw [h]
    simp
  · exact getAttrs_ensureNode_other hk

theorem hasNode_ensureNode_self (G : Graph) (k : String) :
    hasNode (ensureNode G k) k = true := by
  unfold ensureNode
  split
  next h => exact h
  next h =>
    rw [hasNode_iff_getAttrs]
    show (lookupA (G.nodes ++ [(k, {})]) k).isSome = true
    rw [lookupA_append]
    have : hasNode G k = false := by
      cases hG : hasNode G k with
      | false => rfl
      | true => exact absurd hG h
    rw [lookupA_none_of_hasNode_false this]
    simp [lookupA]

theorem hasNode_ensureNode_mono {G : Graph} {k' : String} (k : String)
    (h : hasNode G k' = true) : hasNode (ensureNode G k) k' = true := by
  by_cases hk : k' = k
  · subst hk; exact hasNode_ensureNode_self G k'
  · rw [hasNode_iff_getAttrs, getAttrs_ensureNode_other hk]
    exact h

theorem nodes_addEdgeRaw (G : Graph) (u v rel : String) :
    (addEdgeRaw G u v rel).nodes = G.nodes := by
  unfold addEdgeRaw
  split <;> rfl

theorem getAttrs_addEdge_present {G : Graph} {k : String} (u v rel : String)
    (h : hasNode G k = true) : getAttrs (addEdge G u v rel) k = getAttrs G k := by
  unfold addEdge
  show lookupA (addEdgeRaw (ensureNode (ensureNode G u) v) u v rel).nodes k = _
  rw [nodes_addEdgeRaw]
  show getAttrs (ensureNode (ensureNode G u) v) k = _
  rw [getAttrs_ensureNode_present v (hasNode_ensureNode_mono u h),
      getAttrs_ensureNode_present u h]

theorem hasNode_addEdge_mono {G : Graph} {k : String} (u v rel : String)
    (h : hasNode G k = true) : hasNode (addEdge G u v rel) k = true := by
  unfold addEdge
  show (lookupA (addEdgeRaw (ensureNode (ensureNode G u) v) u v rel).nodes k).isSome = true
  rw [nodes_addEdgeRaw]
  exact hasNode_ensureNode_mono v (hasNode_ensureNode_mono u h)

theorem mem_edges_addEdge {G : Graph} {e : String × String × String}
    (u v rel : String) (hmem : e ∈ G.edges) (hne : samePair e u v = false) :
    e ∈ (addEdge G u v rel).edges := by
  unfold addEdge addEdgeRaw
  simp only [edges_ensureNode]
  split
  · simp only [List.mem_map]
    exact ⟨e, hmem, by rw [hne]; rfl⟩
  · exact List.mem_append_left _ hmem

theorem addEdge_new {G : Graph} (u v rel : String)
    (h : (G.edges.any fun e => samePair e u v) = false) :
    (addEdge G u v rel).edges = G.edges ++ [(u, v, rel)] := by
  unfold addEdge addEdgeRaw
  simp only [edges_ensureNode, h]
  rfl

theorem edges_setParams (G : Graph) (k : String) (ps : List String) :
    (setParams G k ps).edges = G.edges := rfl

theorem edges_setUsage (G : Graph) (k : String) (u : String) :
    (setUsage G k u).edges = G.edges := rfl

/-! ### Fold and walk machinery -/

theorem foldl_noop {α : Type} {step : Graph → α → Graph} :
    ∀ (l : List α), (∀ G x, x ∈ l → step G x = G) → ∀ G, l.foldl step G = G := by
  intro l
  induction l with
  | nil => intro _ G; rfl
  | cons x xs ih =>
      intro h G
      rw [List.foldl_cons, h G x (List.mem_cons_self x xs)]
      exact ih (fun G y hy => h G y (List.mem_cons_of_mem x hy)) G

theorem foldl_rel {α : Type} {R : Graph → Graph → Prop} (step : Graph → α → Graph)
    (hrefl : ∀ G, R G G) (htrans : ∀ a b c, R a b → R b c → R a c) :
    ∀ (l : List α), (∀ G x, x ∈ l → R G (step G x)) → ∀ G, R G (l.foldl step G) := by
  intro l
  induction l with
  | nil => intro _ G; exact hrefl G
  | cons x xs ih =>
      intro h G
      rw [List.foldl_cons]
      exact htrans _ _ _ (h G x (List.mem_cons_self x xs))
        (ih (fun G y hy => h G y (List.mem_cons_of_mem x hy)) _)

theorem nodesW_step_lt (n : PyNode) (rest : List PyNode) :
    nodesW (rest ++ children n) < nodesW (n :: rest) := by
  have h1 := childrenW_lt n
  have h2 : nodesW (n :: rest) = weight n + nodesW rest := rfl
  rw [nodesW_append, h2]
  omega

theorem walk_forall {P : PyNode → Prop}
    (hcl : ∀ n, P n → ∀ m ∈ children n, P m) :
    ∀ (k : Nat) (l : List PyNode), nodesW l ≤ k →
      (∀ n ∈ l, P n) → ∀ x ∈ walk l, P x := by
  intro k
  induction k with
  | zero =>
      intro l hle hl x hx
      have : l = [] := nodesW_eq_zero (Nat.le_antisymm hle (Nat.zero_le _))
      subst this
      rw [walk_nil] at hx
      cases hx
  | succ k ih =>
      intro l hle hl x hx
      cases l with
      | nil =>
          rw [walk_nil] at hx
          cases hx
      | cons n rest =>
          rw [walk_cons] at hx
          rcases List.mem_cons.mp hx with h | h
          · rw [h]
            exact hl n (List.mem_cons_self n rest)
          · have hbound := nodesW_step_lt n rest
            refine ih (rest ++ children n) (by omega) ?_ x h
            intro m hm
            rcases List.mem_append.mp hm with hm | hm
            · exact hl m (List.mem_cons_of_mem n hm)
            · exact hcl n (hl n (List.mem_cons_self n rest)) m hm

theorem callFreeList_mem {es : List Expr} (h : callFreeList es = true) :
    ∀ e ∈ es, callFree e = true := by
  induction es with
  | nil => intro e he; cases he
  | cons x xs ih =>
      intro e he
      rw [callFreeList, Bool.and_eq_true] at h
      rcases List.mem_cons.mp he with rfl | he
      · exact h.1
      · exact ih h.2 e he

theorem callFreeItems_mem {items : List (Expr × Expr)} (h : callFreeItems items = true) :
    ∀ kv ∈ items, callFree kv.1 = true ∧ callFree kv.2 = true := by
  induction items with
  | nil => intro kv hkv; cases hkv
  | cons x xs ih =>
      intro kv hkv
      rw [callFreeItems, Bool.and_eq_true, Bool.and_eq_true] at h
      rcases List.mem_cons.mp hkv with rfl | hkv
      · exact ⟨h.1.1, h.1.2⟩
      · exact ih h.2 kv hkv

theorem freeExprNode_children :
    ∀ n, FreeExprNode n → ∀ m ∈ children n, FreeExprNode m := by
  rintro n ⟨e, rfl, hfree⟩ m hm
  cases e with
  | name id => cases hm
  | const v => cases hm
  | otherE r => cases hm
  | listE es =>
      simp only [children, List.mem_map] at hm
      obtain ⟨e', he', rfl⟩ := hm
      exact ⟨e', rfl, callFreeList_mem hfree e' he'⟩
  | setE es =>
      simp only [children, List.mem_map] at hm
      obtain ⟨e', he', rfl⟩ := hm
      exact ⟨e', rfl, callFreeList_mem hfree e' he'⟩
  | tupleE es =>
      simp only [children, List.mem_map] at hm
      obtain ⟨e', he', rfl⟩ := hm
      exact ⟨e', rfl, callFreeList_mem hfree e' he'⟩
  | dictE items =>
      simp only [children, List.mem_append, List.mem_map] at hm
      rcases hm with ⟨kv, hkv, rfl⟩ | ⟨kv, hkv, rfl⟩
      · exact ⟨kv.1, rfl, (callFreeItems_mem hfree kv hkv).1⟩
      · exact ⟨kv.2, rfl, (callFreeItems_mem hfree kv hkv).2⟩
  | call f args => cases hfree
  | attr v a =>
      rw [callFree] at hfree
      simp only [children, List.mem_singleton] at hm
      subst hm
      exact ⟨v, rfl, hfree⟩

/-! ### Pass no-op lemmas -/

theorem importStep_expr (mod : String) (G : Graph) (e : Expr) :
    importStep mod G (.expr e) = G := rfl

theorem importStep_module (mod : String) (G : Graph) (body : List Stmt) :
    importStep mod G (.moduleN body) = G := rfl

theorem classStep_expr (mod : String) (src : List String) (G : Graph) (e : Expr) :
    classStep mod src G (.expr e) = G := rfl

theorem classStep_module (mod : String) (src : List String) (G : Graph)
    (body : List Stmt) : classStep mod src G (.moduleN body) = G := rfl

theorem literalStep_expr (mod : String) (G : Graph) (e : Expr) :
    literalStep mod G (.expr e) = G := rfl

theorem literalStep_module (mod : String) (G : Graph) (body : List Stmt) :
    literalStep mod G (.moduleN body) = G := rfl

theorem varsCallsStep_module (mod : String) (imps : List String) (G : Graph)
    (body : List Stmt) : varsCallsStep mod imps G (.moduleN body) = G := rfl

theorem varsCallsStep_expr_callFree (mod : String) (imps : List String)
    (G : Graph) {e : Expr} (h : callFree e = true) :
    varsCallsStep mod imps G (.expr e) = G := by
  cases e with
  | call f args => cases h
  | name id => rfl
  | const v => rfl
  | listE es => rfl
  | dictE items => rfl
  | setE es => rfl
  | tupleE es => rfl
  | attr v a => rfl
  | otherE r => rfl

/-! ## Claim C3 -/

/-- C3 (counterexample): the kind classifier does not equal the four-step
reference definition of the claim: on the expression `Module()` the code's
`guess_type` returns `module` (because `TYPE_COLOR` also contains the
non-container, non-scalar keys `class`, `function`, `module`, `import`,
`unknown`), while the claim's step 3 only recognizes container/scalar kind
names, so its reference classifier falls through to `unknown`. -/
theorem C3_counterexample :
    guess_type (.call (.name "Module") []) = "module" ∧
    classify_spec (.call (.name "Module") []) = "unknown" ∧
    guess_type (.call (.name "Module") []) ≠
      classify_spec (.call (.name "Module") []) :=
  ⟨by decide, by decide, by decide⟩

/-- C3 (amended): for every expression, `guess_type` equals the four-step
first-match reference definition with step 3 amended to recognize a call
whose bare-identifier callee case-insensitively matches any key of the
kind/color table (the containers and scalars, and also `class`, `function`,
`module`, `import`, `unknown`); steps 1, 2 and 4 are as the claim stated
them. -/
theorem C3_amended_classifier_eq (e : Expr) :
    guess_type e = classify_spec_amended e := by
  cases e with
  | const v => cases v <;> rfl
  | call f args => cases f <;> rfl
  | name id => rfl
  | listE es => rfl
  | dictE items => rfl
  | setE es => rfl
  | tupleE es => rfl
  | attr v a => rfl
  | otherE r => rfl

/-! ## Claim C2 -/

/-- C1 (counterexample): building the module `import os` + `foo(os)` adds
the `arg` edge `("os", "foo()")` although no node `foo()` existed at that
moment: the argument-edge step (line 223-225) checks only that the argument
is a node, and `nx.Graph.add_edge` silently creates the missing callee
endpoint — visible in the final graph as the node `foo()` with an *empty*
attribute dict, which no `add_node` call site can produce (each always
passes `kind`). -/
theorem C1_counterexample :
    (build_graph [c1File]).nodes =
      [("m.py", { kind := some "module", label := some "m.py",
                  filePath := some "m.py" }),
       ("os", { kind := some "import", label := some "os" }),
       ("foo()", {})] ∧
    (build_graph [c1File]).edges =
      [("m.py", "os", "imports"), ("os", "foo()", "arg")] :=
  ⟨by decide, by decide⟩

theorem wellFormedB_iff {G : Graph} :
    wellFormedB G = true ↔
      ∀ e ∈ G.edges, hasNode G e.1 = true ∧ hasNode G e.2.1 = true := by
  unfold wellFormedB
  rw [List.all_eq_true]
  constructor
  · intro h e he
    have h2 := h e he
    rw [Bool.and_eq_true] at h2
    exact h2
  · intro h e he
    rw [Bool.and_eq_true]
    exact h e he

theorem wf_addNode {G : Graph} (k : String) (a : Attrs)
    (h : wellFormedB G = true) : wellFormedB (addNode G k a) = true := by
  rw [wellFormedB_iff] at h ⊢
  intro e he
  rw [edges_addNode] at he
  exact ⟨hasNode_addNode_mono k a (h e he).1, hasNode_addNode_mono k a (h e he).2⟩

theorem wf_ensureNode {G : Graph} (k : String)
    (h : wellFormedB G = true) : wellFormedB (ensureNode G k) = true := by
  rw [wellFormedB_iff] at h ⊢
  intro e he
  rw [edges_ensureNode] at he
  exact ⟨hasNode_ensureNode_mono k (h e he).1, hasNode_ensureNode_mono k (h e he).2⟩

theorem hasNode_addEdgeRaw (G : Graph) (u v rel k : String) :
    hasNode (addEdgeRaw G u v rel) k = hasNode G k := by
  unfold hasNode
  rw [nodes_addEdgeRaw]

theorem wf_addEdge {G : Graph} (u v rel : String)
    (h : wellFormedB G = true) : wellFormedB (addEdge G u v rel) = true := by
  unfold addEdge
  have h2 : wellFormedB (ensureNode (ensureNode G u) v) = true :=
    wf_ensureNode v (wf_ensureNode u h)
  have hu : hasNode (ensureNode (ensureNode G u) v) u = true :=
    hasNode_ensureNode_mono v (hasNode_ensureNode_self G u)
  have hv : hasNode (ensureNode (ensureNode G u) v) v = true :=
    hasNode_ensureNode_self _ v
  generalize hG2 : ensureNode (ensureNode G u) v = G2 at h2 hu hv
  rw [wellFormedB_iff] at h2 ⊢
  intro e he
  rw [hasNode_addEdgeRaw, hasNode_addEdgeRaw]
  unfold addEdgeRaw at he
  revert he
  split
  · intro he
    simp only [List.mem_map] at he
    obtain ⟨e0, he0, rfl⟩ := he
    split
    · exact ⟨(h2 e0 he0).1, (h2 e0 he0).2⟩
    · exact ⟨(h2 e0 he0).1, (h2 e0 he0).2⟩
  · intro he
    rcases List.mem_append.mp he with he | he
    · exact h2 e he
    · rcases List.mem_singleton.mp he with rfl
      exact ⟨hu, hv⟩

theorem lookupA_map_upd_other (upd : Attrs → Attrs) (l : List (String × Attrs))
    (k k' : String) (h : k' ≠ k) :
    lookupA (l.map fun p => if p.1 == k then (p.1, upd p.2) else p) k'
      = lookupA l k' := by
  induction l with
  | nil => rfl
  | cons p ps ih =>
      simp only [List.map_cons, lookupA]
      cases hpk : (p.1 == k) with
      | true =>
          have hk2 : (p.1 == k') = false := by
            rw [beq_iff_eq] at hpk
            exact str_beq_false (by rw [hpk]; exact fun he => h he.symm)
          simp only [hpk, if_true, hk2, Bool.false_eq_true, if_false]
          exact ih
      | false =>
          simp only [hpk, Bool.false_eq_true, if_false]
          split
          · rfl
          · exact ih

theorem lookupA_map_upd_isSome (upd : Attrs → Attrs) (l : List (String × Attrs))
    (k k' : String) :
    (lookupA (l.map fun p => if p.1 == k then (p.1, upd p.2) else p) k').isSome
      = (lookupA l k').isSome := by
  induction l with
  | nil => rfl
  | cons p ps ih =>
      simp only [List.map_cons, lookupA]
      cases hpk : (p.1 == k) with
      | true =>
          simp only [hpk, if_true]
          cases hpk2 : (p.1 == k') with
          | true => simp only [hpk2, if_true, Option.isSome]
          | false =>
              simp only [hpk2, Bool.false_eq_true, if_false]
              exact ih
      | false =>
          simp only [hpk, Bool.false_eq_true, if_false]
          split
          · rfl
          · exact ih

theorem hasNode_setParams (G : Graph) (k : String) (ps : List String)
    (k' : String) : hasNode (setParams G k ps) k' = hasNode G k' := by
  unfold hasNode setParams
  exact lookupA_map_upd_isSome (fun a => { a with params := some ps }) G.nodes k k'

theorem hasNode_setUsage (G : Graph) (k u : String) (k' : String) :
    hasNode (setUsage G k u) k' = hasNode G k' := by
  unfold hasNode setUsage
  exact lookupA_map_upd_isSome (fun a => { a with usageExample := some u }) G.nodes k k'

theorem wf_setParams {G : Graph} (k : String) (ps : List String)
    (h : wellFormedB G = true) : wellFormedB (setParams G k ps) = true := by
  rw [wellFormedB_iff] at h ⊢
  intro e he
  rw [edges_setParams] at he
  rw [hasNode_setParams, hasNode_setParams]
  exact h e he

theorem wf_setUsage {G : Graph} (k u : String)
    (h : wellFormedB G = true) : wellFormedB (setUsage G k u) = true := by
  rw [wellFormedB_iff] at h ⊢
  intro e he
  rw [edges_setUsage] at he
  rw [hasNode_setUsage, hasNode_setUsage]
  exact h e he

theorem wf_foldl {α : Type} (step : Graph → α → Graph) (l : List α)
    (hstep : ∀ G x, x ∈ l → wellFormedB G = true → wellFormedB (step G x) = true) :
    ∀ G, wellFormedB G = true → wellFormedB (l.foldl step G) = true := by
  intro G h
  exact @foldl_rel α (fun G G' => wellFormedB G = true → wellFormedB G' = true)
    step (fun _ hh => hh) (fun a b c hab hbc hh => hbc (hab hh)) l hstep G h

theorem wf_condAddNode {G : Graph} (k : String) (a : Attrs)
    (h : wellFormedB G = true) :
    wellFormedB (if hasNode G k then G else addNode G k a) = true := by
  split
  · exact h
  · exact wf_addNode k a h

theorem wf_importStep (mod : String) (n : PyNode) :
    ∀ G, wellFormedB G = true → wellFormedB (importStep mod G n) = true := by
  intro G h
  cases n with
  | moduleN body => exact h
  | expr e => exact h
  | stmt s =>
      cases s with
      | importS items =>
          show wellFormedB (items.foldl _ G) = true
          refine wf_foldl _ items (fun G it _ hG => ?_) G h
          exact wf_addEdge mod it.name "imports" (wf_condAddNode it.name _ hG)
      | importFrom m items =>
          cases m with
          | none => exact h
          | some mname =>
              exact wf_addEdge mod mname "imports" (wf_condAddNode mname _ h)
      | classDef nm bases body d l el => exact h
      | funcDef nm ps body d l el => exact h
      | assign ts v => exact h
      | annAssign t ann v? => exact h
      | exprS e => exact h
      | otherS => exact h

theorem wf_classStep (mod : String) (src : List String) (n : PyNode) :
    ∀ G, wellFormedB G = true → wellFormedB (classStep mod src G n) = true := by
  intro G h
  cases n with
  | moduleN body => exact h
  | expr e => exact h
  | stmt s =>
      cases s with
      | classDef cname basesE body doc lineno endLineno =>
          dsimp only [classStep]
          refine wf_foldl _ body (fun G st _ hG => ?_) _
            (wf_foldl _ _ (fun G baseName _ hG => ?_) _
              (wf_addEdge _ _ _ (wf_addNode _ _ h)))
          · cases st with
            | funcDef fname params fbody fdoc flineno fendLineno =>
                dsimp only
                exact wf_addEdge _ _ _ (wf_addNode _ _ hG)
            | importS items => exact hG
            | importFrom m items => exact hG
            | classDef a b c d e f => exact hG
            | assign ts v => exact hG
            | annAssign t ann v? => exact hG
            | exprS e => exact hG
            | otherS => exact hG
          · dsimp only
            split
            · exact wf_addEdge _ _ _ hG
            · split
              · exact wf_addEdge _ _ _ hG
              · exact hG
      | importS items => exact h
      | importFrom m items => exact h
      | funcDef nm ps body d l el => exact h
      | assign ts v => exact h
      | annAssign t ann v? => exact h
      | exprS e => exact h
      | otherS => exact h

theorem wf_topFuncStep (mod : String) (src : List String) (st : Stmt) :
    ∀ G, wellFormedB G = true → wellFormedB (topFuncStep mod src G st) = true := by
  intro G h
  cases st with
  | funcDef fname params body fdoc flineno fendLineno =>
      show wellFormedB (if hasNode G _ then G else _) = true
      split
      · exact h
      · exact wf_addEdge _ _ _ (wf_addNode _ _ h)
  | importS items => exact h
  | importFrom m items => exact h
  | classDef a b c d e f => exact h
  | assign ts v => exact h
  | annAssign t ann v? => exact h
  | exprS e => exact h
  | otherS => exact h

theorem wf_callStep (mod : String) (imps : List String) (f : Expr)
    (args : List Expr) :
    ∀ G, wellFormedB G = true → wellFormedB (callStep mod imps G f args) = true := by
  intro G h
  unfold callStep
  cases hinfo : (match f with
    | .name id =>
        some (id ++ "()", imps.contains id || builtinNames.contains id)
    | .attr v a => some (unparse (.attr v a) ++ "()", true)
    | _ => (none : Option (String × Bool))) with
  | none => simpa [hinfo] using h
  | some fi =>
      simp only [hinfo]
      refine wf_foldl _ args (fun G a _ hG => ?_) _ ?_
      · cases a with
        | name id =>
            show wellFormedB (if hasNode G id then addEdge G id fi.1 "arg" else G) = true
            split
            · exact wf_addEdge _ _ _ hG
            · exact hG
        | const v => exact hG
        | listE es => exact hG
        | dictE items => exact hG
        | setE es => exact hG
        | tupleE es => exact hG
        | call g as => exact hG
        | attr v a2 => exact hG
        | otherE r => exact hG
      · split
        · split
          · refine wf_setUsage _ _ ?_
            split
            · exact wf_setParams _ _ h
            · exact h
          · exact h
        · split
          · exact wf_addEdge _ _ _ (wf_addNode _ _ h)
          · exact h

theorem wf_varsCallsStep (mod : String) (imps : List String) (n : PyNode) :
    ∀ G, wellFormedB G = true → wellFormedB (varsCallsStep mod imps G n) = true := by
  intro G h
  cases n with
  | moduleN body => exact h
  | expr e =>
      cases e with
      | call f args => exact wf_callStep mod imps f args G h
      | name id => exact h
      | const v => exact h
      | listE es => exact h
      | dictE items => exact h
      | setE es => exact h
      | tupleE es => exact h
      | attr v a => exact h
      | otherE r => exact h
  | stmt s =>
      cases s with
      | assign targets value =>
          refine wf_foldl _ targets (fun G t _ hG => ?_) G h
          cases t with
          | name id => exact wf_addEdge _ _ _ (wf_addNode _ _ hG)
          | const v => exact hG
          | listE es => exact hG
          | dictE items => exact hG
          | setE es => exact hG
          | tupleE es => exact hG
          | call g as => exact hG
          | attr v a => exact hG
          | otherE r => exact hG
      | annAssign t ann v? =>
          cases t with
          | name id => exact wf_addEdge _ _ _ (wf_addNode _ _ h)
          | const v => exact h
          | listE es => exact h
          | dictE items => exact h
          | setE es => exact h
          | tupleE es => exact h
          | call g as => exact h
          | attr v a => exact h
          | otherE r => exact h
      | importS items => exact h
      | importFrom m items => exact h
      | classDef a b c d e f => exact h
      | funcDef a b c d e f => exact h
      | exprS e => exact h
      | otherS => exact h

theorem wf_literalStep (mod : String) (n : PyNode) :
    ∀ G, wellFormedB G = true → wellFormedB (literalStep mod G n) = true := by
  intro G h
  cases n with
  | moduleN body => exact h
  | expr e => exact h
  | stmt s =>
      cases s with
      | assign targets value =>
          cases value with
          | dictE items =>
              refine wf_foldl _ targets (fun G t _ hG => ?_) G h
              cases t with
              | name parent =>
                  refine wf_foldl _ items (fun G kv _ hG2 => ?_) G hG
                  show wellFormedB (if hasNode (addNode G _ _) _ then _ else _) = true
                  split
                  · exact wf_addEdge _ _ _ (wf_addNode _ _ hG2)
                  · exact wf_addNode _ _ hG2
              | const v => exact hG
              | listE es => exact hG
              | dictE its => exact hG
              | setE es => exact hG
              | tupleE es => exact hG
              | call g as => exact hG
              | attr v a => exact hG
              | otherE r => exact hG
          | listE es =>
              refine wf_foldl _ targets (fun G t _ hG => ?_) G h
              cases t with
              | name parent =>
                  refine wf_foldl _ es.enum (fun G p _ hG2 => ?_) G hG
                  show wellFormedB (if hasNode (addNode G _ _) _ then _ else _) = true
                  split
                  · exact wf_addEdge _ _ _ (wf_addNode _ _ hG2)
                  · exact wf_addNode _ _ hG2
              | const v => exact hG
              | listE es2 => exact hG
              | dictE its => exact hG
              | setE es2 => exact hG
              | tupleE es2 => exact hG
              | call g as => exact hG
              | attr v a => exact hG
              | otherE r => exact hG
          | setE es =>
              refine wf_foldl _ targets (fun G t _ hG => ?_) G h
              cases t with
              | name parent =>
                  refine wf_foldl _ es.enum (fun G p _ hG2 => ?_) G hG
                  show wellFormedB (if hasNode (addNode G _ _) _ then _ else _) = true
                  split
                  · exact wf_addEdge _ _ _ (wf_addNode _ _ hG2)
                  · exact wf_addNode _ _ hG2
              | const v => exact hG
              | listE es2 => exact hG
              | dictE its => exact hG
              | setE es2 => exact hG
              | tupleE es2 => exact hG
              | call g as => exact hG
              | attr v a => exact hG
              | otherE r => exact hG
          | tupleE es =>
              refine wf_foldl _ targets (fun G t _ hG => ?_) G h
              cases t with
              | name parent =>
                  refine wf_foldl _ es.enum (fun G p _ hG2 => ?_) G hG
                  show wellFormedB (if hasNode (addNode G _ _) _ then _ else _) = true
                  split
                  · exact wf_addEdge _ _ _ (wf_addNode _ _ hG2)
                  · exact wf_addNode _ _ hG2
              | const v => exact hG
              | listE es2 => exact hG
              | dictE its => exact hG
              | setE es2 => exact hG
              | tupleE es2 => exact hG
              | call g as => exact hG
              | attr v a => exact hG
              | otherE r => exact hG
          | name id => exact h
          | const v => exact h
          | call g as => exact h
          | attr v a => exact h
          | otherE r => exact h
      | importS items => exact h
      | importFrom m items => exact h
      | classDef a b c d e f => exact h
      | funcDef a b c d e f => exact h
      | annAssign t ann v? => exact h
      | exprS e => exact h
      | otherS => exact h

/-- C1 (amended): the graph never contains a dangling edge — every edge's
endpoints exist as nodes from the moment the edge exists, because
`add_edge` inserts missing endpoints itself.  What the claim's stronger
"both endpoints exist beforehand, or the edge is skipped" misses is the
argument-edge step, which checks only the argument endpoint and lets
`add_edge` create the callee endpoint (see `C1_counterexample`); every
other edge-adding step does establish both endpoints first. -/
theorem C1_amended_no_dangling_edges (f : PyFile) (G : Graph)
    (h : wellFormedB G = true) :
    wellFormedB (build_graph_from_file f G) = true := by
  unfold build_graph_from_file
  cases hp : f.parsed with
  | none => exact h
  | some body =>
      refine wf_foldl _ _ (fun G n _ hG => wf_literalStep _ n G hG) _
        (wf_foldl _ _ (fun G n _ hG => wf_varsCallsStep _ _ n G hG) _
          (wf_foldl _ _ (fun G st _ hG => wf_topFuncStep _ _ st G hG) _
            (wf_foldl _ _ (fun G n _ hG => wf_classStep _ _ n G hG) _
              (wf_foldl _ _ (fun G n _ hG => wf_importStep _ n G hG) _
                (wf_condAddNode _ _ h)))))

/-- Witness for `C1_amended_no_dangling_edges` at a concrete input. -/
theorem C1_amended_witness :
    wellFormedB Graph.empty = true ∧
    wellFormedB (build_graph_from_file c1File Graph.empty) = true :=
  ⟨by decide, C1_amended_no_dangling_edges c1File Graph.empty (by decide)⟩

/-! ## Claim C4 -/

/-- C4 (counterexample): in the module `class x: pass` followed by `x = 1`,
the class pass adds the edge (`m.py`, `m.py::x`, `contains`) and the
variable pass then calls `add_edge` on the same unordered pair with
relation `var`.  `nx.Graph` keeps at most one edge per pair and overwrites
its attributes, so the built graph holds exactly one edge between that pair,
tagged `var` — the `contains` edge did not survive, refuting "adding a
second edge with a different relation does not destroy or replace the
first". -/
theorem C4_counterexample :
    (build_graph [c4File]).edges = [("m.py", "m.py::x", "var")] ∧
    countPair (build_graph [c4File]) "m.py" "m.py::x" = 1 ∧
    pairRel (build_graph [c4File]) "m.py" "m.py::x" = some "var" :=
  ⟨by decide, by decide, by decide⟩

theorem samePair_replace (e : String × String × String) (u v r : String) :
    samePair (e.1, e.2.1, r) u v = samePair e u v := rfl

theorem samePair_trans {e e' : String × String × String} {u v : String}
    (h1 : samePair e u v = true) (h2 : samePair e' u v = true) :
    samePair e' e.1 e.2.1 = true := by
  unfold samePair at h1 h2 ⊢
  rw [Bool.or_eq_true, Bool.and_eq_true, Bool.and_eq_true] at h1 h2 ⊢
  simp only [beq_iff_eq] at h1 h2 ⊢
  rcases h1 with ⟨rfl, rfl⟩ | ⟨rfl, rfl⟩ <;>
    rcases h2 with ⟨h3, h4⟩ | ⟨h3, h4⟩ <;> simp [h3, h4]

theorem filter_map_comm {α : Type} (f : α → α) (p : α → Bool) (l : List α)
    (h : ∀ e, p (f e) = p e) :
    (l.map f).filter p = (l.filter p).map f := by
  induction l with
  | nil => rfl
  | cons e es ih =>
      simp only [List.map_cons, List.filter_cons, h e]
      split
      · simp [ih]
      · exact ih

theorem find?_map_comm {α : Type} (f : α → α) (p : α → Bool) (l : List α)
    (h : ∀ e, p (f e) = p e) :
    (l.map f).find? p = (l.find? p).map f := by
  induction l with
  | nil => rfl
  | cons e es ih =>
      simp only [List.map_cons, List.find?_cons]
      cases hp : p e with
      | true => simp [h e, hp]
      | false => simp [h e, hp, ih]

theorem unique_filter_le_one {es : List (String × String × String)}
    {u v : String} (h : uniquePairsB es = true) :
    (es.filter fun e => samePair e u v).length ≤ 1 := by
  induction es with
  | nil => simp
  | cons e es ih =>
      rw [uniquePairsB, Bool.and_eq_true] at h
      simp only [List.filter_cons]
      split
      next hpe =>
        simp only [List.length_cons]
        have : (es.filter fun e' => samePair e' u v) = [] := by
          rw [List.filter_eq_nil_iff]
          intro e' he'
          intro hpe'
          have := samePair_trans hpe hpe'
          have hall := List.all_eq_true.mp h.1 e' he'
          rw [this] at hall
          cases hall
        rw [this]
        simp
      next hpe => exact ih h.2

theorem filter_pos_of_any {es : List (String × String × String)}
    {p : String × String × String → Bool} (h : es.any p = true) :
    0 < (es.filter p).length := by
  obtain ⟨e, he, hp⟩ := List.any_eq_true.mp h
  have : e ∈ es.filter p := List.mem_filter.mpr ⟨he, hp⟩
  exact List.length_pos.mpr (List.ne_nil_of_mem this)

theorem map_id_of_rel {es : List (String × String × String)} {u v r : String}
    (h : ∀ e ∈ es, samePair e u v = true → e.2.2 = r) :
    (es.map fun e => if samePair e u v then (e.1, e.2.1, r) else e) = es := by
  induction es with
  | nil => rfl
  | cons e es ih =>
      simp only [List.map_cons]
      have htail : (es.map fun e => if samePair e u v then (e.1, e.2.1, r) else e) = es :=
        ih fun e' he' => h e' (List.mem_cons_of_mem e he')
      rw [htail]
      split
      next hpe =>
        have hr := h e (List.mem_cons_self e es) hpe
        have : (e.1, e.2.1, r) = e := by
          rw [← hr]
        rw [this]
      next hpe => rfl

theorem edges_addEdge_existing {G : Graph} {u v : String} (r : String)
    (h : (G.edges.any fun e => samePair e u v) = true) :
    (addEdge G u v r).edges =
      G.edges.map fun e => if samePair e u v then (e.1, e.2.1, r) else e := by
  unfold addEdge addEdgeRaw
  simp only [edges_ensureNode, h]
  rfl

theorem rel_addEdge {G : Graph} (u v r : String) :
    ∀ e ∈ (addEdge G u v r).edges, samePair e u v = true → e.2.2 = r := by
  intro e he hpe
  cases hex : (G.edges.any fun e => samePair e u v) with
  | true =>
      rw [edges_addEdge_existing r hex] at he
      obtain ⟨e0, he0, rfl⟩ := List.mem_map.mp he
      revert hpe
      split
      · intro _; rfl
      next hne =>
        intro hpe
        exact absurd hpe hne
  | false =>
      rw [addEdge_new u v r hex] at he
      rcases List.mem_append.mp he with he | he
      · exfalso
        have hx : (G.edges.any fun e => samePair e u v) = true :=
          List.any_eq_true.mpr ⟨e, he, hpe⟩
        rw [hex] at hx
        cases hx
      · rcases List.mem_singleton.mp he with rfl
        rfl

theorem any_addEdge_self (G : Graph) (u v r : String) :
    ((addEdge G u v r).edges.any fun e => samePair e u v) = true := by
  cases hex : (G.edges.any fun e => samePair e u v) with
  | true =>
      rw [edges_addEdge_existing r hex]
      obtain ⟨e0, he0, hp0⟩ := List.any_eq_true.mp hex
      apply List.any_eq_true.mpr
      refine ⟨(e0.1, e0.2.1, r), List.mem_map.mpr ⟨e0, he0, by simp [hp0]⟩, ?_⟩
      rw [samePair_replace]
      exact hp0
  | false =>
      rw [addEdge_new u v r hex]
      apply List.any_eq_true.mpr
      exact ⟨(u, v, r), List.mem_append_right _ (List.mem_singleton_self _),
        by simp [samePair]⟩

theorem countPair_addEdge {G : Graph} (u v r : String)
    (h : uniquePairsB G.edges = true) : countPair (addEdge G u v r) u v = 1 := by
  unfold countPair
  cases hex : (G.edges.any fun e => samePair e u v) with
  | true =>
      rw [edges_addEdge_existing r hex]
      rw [filter_map_comm _ _ _ (fun e => by
        split
        next hpe => rw [samePair_replace, hpe]
        next => rfl)]
      rw [List.length_map]
      have h1 := unique_filter_le_one (u := u) (v := v) h
      have h2 := filter_pos_of_any hex
      omega
  | false =>
      rw [addEdge_new u v r hex]
      rw [List.filter_append]
      have : (G.edges.filter fun e => samePair e u v) = [] := by
        rw [List.filter_eq_nil_iff]
        intro e he hpe
        have hx : (G.edges.any fun e => samePair e u v) = true :=
          List.any_eq_true.mpr ⟨e, he, hpe⟩
        rw [hex] at hx
        cases hx
      rw [this]
      simp [samePair]

theorem countPair_addEdge_again {G : Graph} (u v r r2 : String)
    (h : uniquePairsB G.edges = true) :
    countPair (addEdge (addEdge G u v r) u v r2) u v = 1 := by
  unfold countPair
  rw [edges_addEdge_existing r2 (any_addEdge_self G u v r)]
  rw [filter_map_comm _ _ _ (fun e => by
    split
    next hpe => rw [samePair_replace, hpe]
    next => rfl)]
  rw [List.length_map]
  exact countPair_addEdge u v r h

theorem pairRel_addEdge (G : Graph) (u v r : String) :
    pairRel (addEdge G u v r) u v = some r := by
  unfold pairRel
  cases hex : (G.edges.any fun e => samePair e u v) with
  | true =>
      rw [edges_addEdge_existing r hex]
      rw [find?_map_comm _ _ _ (fun e => by
        split
        next hpe => rw [samePair_replace, hpe]
        next => rfl)]
      cases hf : G.edges.find? fun e => samePair e u v with
      | none =>
          exfalso
          obtain ⟨e0, he0, hp0⟩ := List.any_eq_true.mp hex
          exact (List.find?_eq_none.mp hf e0 he0) hp0
      | some e0 =>
          have hp0 := List.find?_some hf
          simp [hp0]
  | false =>
      rw [addEdge_new u v r hex]
      rw [List.find?_append]
      have : (G.edges.find? fun e => samePair e u v) = none := by
        rw [List.find?_eq_none]
        intro e he hpe
        have hx : (G.edges.any fun e => samePair e u v) = true :=
          List.any_eq_true.mpr ⟨e, he, hpe⟩
        rw [hex] at hx
        cases hx
      rw [this]
      simp [samePair]

theorem ensureNode_of_hasNode {G : Graph} {k : String}
    (h : hasNode G k = true) : ensureNode G k = G := by
  unfold ensureNode
  rw [h]
  rfl

theorem hasNode_addEdge_endpoints (G : Graph) (u v r : String) :
    hasNode (addEdge G u v r) u = true ∧ hasNode (addEdge G u v r) v = true := by
  unfold addEdge
  constructor
  · show (lookupA (addEdgeRaw _ u v r).nodes u).isSome = true
    rw [nodes_addEdgeRaw]
    exact hasNode_ensureNode_mono v (hasNode_ensureNode_self G u)
  · show (lookupA (addEdgeRaw _ u v r).nodes v).isSome = true
    rw [nodes_addEdgeRaw]
    exact hasNode_ensureNode_self _ v

theorem addEdge_idem (G : Graph) (u v r : String) :
    addEdge (addEdge G u v r) u v r = addEdge G u v r := by
  have hu := (hasNode_addEdge_endpoints G u v r).1
  have hv := (hasNode_addEdge_endpoints G u v r).2
  show addEdgeRaw (ensureNode (ensureNode (addEdge G u v r) u) v) u v r = _
  rw [ensureNode_of_hasNode hu, ensureNode_of_hasNode hv]
  unfold addEdgeRaw
  rw [any_addEdge_self G u v r]
  simp only [if_true]
  have : ((addEdge G u v r).edges.map fun e =>
      if samePair e u v then (e.1, e.2.1, r) else e) = (addEdge G u v r).edges :=
    map_id_of_rel (rel_addEdge u v r)
  rw [this]

/-- C4 (amended): between any unordered pair of node keys at most one edge
exists; adding an edge with a different relation on a pair that already has
one does not create a second edge — it *replaces* the stored relation (the
first edge's tag is destroyed) — while re-adding an edge with identical
source, target and relation leaves the graph unchanged (one such edge). -/
theorem C4_amended_relation_replacement (G : Graph) (u v r1 r2 : String)
    (h : uniquePairsB G.edges = true) :
    countPair (addEdge (addEdge G u v r1) u v r2) u v = 1
    ∧ pairRel (addEdge (addEdge G u v r1) u v r2) u v = some r2
    ∧ addEdge (addEdge G u v r1) u v r1 = addEdge G u v r1 :=
  ⟨countPair_addEdge_again u v r1 r2 h,
   pairRel_addEdge (addEdge G u v r1) u v r2,
   addEdge_idem G u v r1⟩

/-- Witness for `C4_amended_relation_replacement` at a concrete input. -/
theorem C4_amended_witness :
    uniquePairsB (build_graph [c4File]).edges = true ∧
    (countPair (addEdge (addEdge (build_graph [c4File]) "m.py" "os" "imports")
        "m.py" "os" "calls") "m.py" "os" = 1
    ∧ pairRel (addEdge (addEdge (build_graph [c4File]) "m.py" "os" "imports")
        "m.py" "os" "calls") "m.py" "os" = some "calls"
    ∧ addEdge (addEdge (build_graph [c4File]) "m.py" "os" "imports")
        "m.py" "os" "imports"
      = addEdge (build_graph [c4File]) "m.py" "os" "imports") :=
  ⟨by decide,
   C4_amended_relation_replacement (build_graph [c4File]) "m.py" "os"
     "imports" "calls" (by decide)⟩


/-! ## Claim C5 -/

/-- C5 (counterexample): for a directory whose operating-system enumeration
lists `b.py` before `a.py`, `find_python_files` returns the two files in
that enumeration order — `Path.rglob('*.py')` performs no sorting — and not
in the lexicographic order (which would put `d/a.py` first), so the claimed
stable lexicographic ordering of discovery fails. -/
theorem C5_counterexample :
    find_python_files c5Tree "d" = ["d/b.py", "d/a.py"] ∧
    find_python_files c5Tree "d" ≠ ["d/a.py", "d/b.py"] :=
  ⟨by decide, by decide⟩

theorem fssize_of_mem {m : String} {es : List FSTree} {entries : List FSTree}
    (h : FSTree.dir m es ∈ entries) : fssize es < fssize entries := by
  induction entries with
  | nil => cases h
  | cons e rest ih =>
      rcases List.mem_cons.mp h with rfl | h
      · show fssize es < fsize (.dir m es) + fssize rest
        rw [fsize]
        omega
      · have := ih h
        have h1 : 0 < fsize e := by cases e <;> simp [fsize]
        show fssize es < fsize e + fssize rest
        omega

theorem mem_rglobSub_iff (p q : String) (entries : List FSTree) :
    q ∈ rglobSub p entries ↔ ∃ e ∈ entries, q ∈ rglobEntry p e := by
  induction entries with
  | nil =>
      rw [show rglobSub p ([] : List FSTree) = [] from rfl]
      simp
  | cons e rest ih =>
      rw [show rglobSub p (e :: rest) = rglobEntry p e ++ rglobSub p rest from rfl]
      rw [List.mem_append, ih]
      constructor
      · rintro (hq | ⟨e', he', hq⟩)
        · exact ⟨e, List.mem_cons_self e rest, hq⟩
        · exact ⟨e', List.mem_cons_of_mem e he', hq⟩
      · rintro ⟨e', he', hq⟩
        rcases List.mem_cons.mp he' with rfl | he'
        · exact Or.inl hq
        · exact Or.inr ⟨e', he', hq⟩

theorem rglobEntry_dir_eq (p m : String) (es : List FSTree) :
    rglobEntry p (.dir m es) =
      find_python_files (.dir m es) (p ++ "/" ++ m) := rfl

theorem find_python_files_iff_pyEntry :
    ∀ (k : Nat) (entries : List FSTree), fssize entries ≤ k →
      ∀ (nm p q : String),
        (q ∈ find_python_files (.dir nm entries) p ↔
          PyEntry (.dir nm entries) p q) := by
  intro k
  induction k with
  | zero =>
      intro entries hle nm p q
      have hnil : entries = [] := by
        cases entries with
        | nil => rfl
        | cons e rest =>
            exfalso
            have h1 : 0 < fsize e := by cases e <;> simp [fsize]
            have : fssize (e :: rest) = fsize e + fssize rest := rfl
            omega
      subst hnil
      constructor
      · intro hq
        rw [show find_python_files (.dir nm []) p = [] from rfl] at hq
        cases hq
      · intro hq
        cases hq with
        | here e hmem hpy => cases hmem
        | deeper m es hmem hsub => cases hmem
  | succ k ih =>
      intro entries hle nm p q
      rw [show find_python_files (.dir nm entries) p =
            (entries.filter fun e => hasPySuffix e.entryName).map
              (fun e => p ++ "/" ++ e.entryName) ++ rglobSub p entries from rfl]
      rw [List.mem_append, mem_rglobSub_iff]
      constructor
      · rintro (hq | ⟨e, he, hq⟩)
        · obtain ⟨e, he, rfl⟩ := List.mem_map.mp hq
          obtain ⟨hmem, hpy⟩ := List.mem_filter.mp he
          exact PyEntry.here e hmem hpy
        · cases e with
          | file n =>
              rw [show rglobEntry p (.file n) = [] from rfl] at hq
              cases hq
          | dir m es =>
              rw [rglobEntry_dir_eq] at hq
              have hlt := fssize_of_mem he
              exact PyEntry.deeper m es he
                ((ih es (by omega) m (p ++ "/" ++ m) q).mp hq)
      · intro hq
        cases hq with
        | here e hmem hpy =>
            exact Or.inl (List.mem_map.mpr ⟨e, List.mem_filter.mpr ⟨hmem, hpy⟩, rfl⟩)
        | deeper m es hmem hsub =>
            refine Or.inr ⟨.dir m es, hmem, ?_⟩
            rw [rglobEntry_dir_eq]
            have hlt := fssize_of_mem hmem
            exact (ih es (by omega) m (p ++ "/" ++ m) q).mpr hsub

/-- C5 (amended): directory discovery returns exactly the entries with a
`.py` suffix found recursively under the directory — but in the
filesystem's enumeration order (each directory's matches in enumeration
order, subdirectories depth-first), not in lexicographic order; the
extractor is a pure function of the ordered discovered list and file
contents, so re-running it is deterministic exactly insofar as the
operating system enumerates the unchanged directory in the same order. -/
theorem C5_amended_discovery_membership (nm p q : String)
    (entries : List FSTree) :
    q ∈ find_python_files (.dir nm entries) p ↔
      PyEntry (.dir nm entries) p q :=
  find_python_files_iff_pyEntry (fssize entries) entries (Nat.le_refl _) nm p q

/-! ## Claim C6 -/

theorem build_graph_from_file_parse_fail {f : PyFile} (G : Graph)
    (h : f.parsed = none) : build_graph_from_file f G = G := by
  unfold build_graph_from_file
  rw [h]

/-- C6: a file whose text fails to parse leaves the shared graph exactly
unchanged — the graph built over any file list containing it equals the
graph built with the file removed, so no module, import, class, function,
variable or edge of that file is added and all other files' results are
unaffected — and the per-file parse diagnostic is recorded. -/
theorem C6_parse_failure_isolated (pre post : List PyFile) (f : PyFile)
    (h : f.parsed = none) :
    build_graph (pre ++ f :: post) = build_graph (pre ++ post)
    ∧ ("Warning: Could not parse " ++ f.path) ∈ parse_warnings (pre ++ f :: post) := by
  constructor
  · unfold build_graph
    rw [List.foldl_append, List.foldl_append, List.foldl_cons]
    rw [build_graph_from_file_parse_fail _ h]
  · unfold parse_warnings
    rw [List.filterMap_append]
    apply List.mem_append_right
    simp only [List.filterMap_cons, h]
    exact List.mem_cons_self _ _

/-- Witness for `C6_parse_failure_isolated` at a concrete input. -/
theorem C6_witness :
    c6BadFile.parsed = none ∧
    (build_graph ([] ++ c6BadFile :: [c6GoodFile]) = build_graph ([] ++ [c6GoodFile])
    ∧ ("Warning: Could not parse " ++ c6BadFile.path)
        ∈ parse_warnings ([] ++ c6BadFile :: [c6GoodFile])) :=
  ⟨rfl, C6_parse_failure_isolated [] [c6GoodFile] c6BadFile rfl⟩

/-! ## Claim C7 -/

theorem mpy_ne_class (s : String) : "m.py" ≠ "m.py::" ++ s := by
  apply ne_of_length_ne
  rw [String.length_append]
  have h4 : ("m.py" : String).length = 4 := rfl
  have h6 : ("m.py::" : String).length = 6 := rfl
  omega

set_option maxHeartbeats 4000000 in
/-- C7: for any two distinct class names, a module declaring `class A: ...`
followed by `class B(A): ...` produces a graph containing the `inherits`
edge between `A`'s node (`m.py::A`) and `B`'s node (`m.py::B`), recorded
with the base `A` as the edge's first endpoint and the derived `B` as its
second — the orientation of the `add_edge(base, derived)` call (the
underlying `nx.Graph` itself is undirected). -/
theorem C7_inherits_edge (A B : String) (hAB : A ≠ B) :
    ("m.py::" ++ A, "m.py::" ++ B, "inherits") ∈ (build_graph [c7File A B]).edges := by
  have hm : ("m.py" ++ "::" : String) = "m.py::" := by decide
  have h1 : ("m.py" == "m.py::" ++ A) = false := str_beq_false (mpy_ne_class A)
  have h2 : ("m.py" == "m.py::" ++ B) = false := str_beq_false (mpy_ne_class B)
  have h3 : ("m.py::" ++ A == "m.py::" ++ B) = false :=
    str_beq_false (ne_append_of_ne hAB)
  have h4 : ("m.py::" ++ B == "m.py::" ++ A) = false :=
    str_beq_false (ne_append_of_ne fun he => hAB he.symm)
  have h5 : ("m.py::" ++ A == "m.py") = false :=
    str_beq_false fun he => (mpy_ne_class A) he.symm
  have h6 : ("m.py::" ++ B == "m.py") = false :=
    str_beq_false fun he => (mpy_ne_class B) he.symm
  simp only [build_graph, c7File, List.foldl_cons, List.foldl_nil,
    build_graph_from_file,
    show basename "m.py" = "m.py" from rfl,
    walk_cons, walk_nil, children, List.map_nil, List.map_cons, List.append_nil,
    List.nil_append, List.cons_append, importedNamesOf,
    importStep, classStep, topFuncStep, varsCallsStep, literalStep,
    List.filterMap_nil, List.filterMap_cons,
    hasNode, lookupA, Graph.empty, addNode, mergeAttrs,
    addEdge, addEdgeRaw, ensureNode, samePair,
    List.any_nil, List.any_cons, List.find?_nil, List.find?_cons,
    hm, h1, h2, h3, h4, h5, h6, beq_self_eq_true,
    Option.isSome_none, Option.isSome_some, Option.some_orElse,
    Option.none_orElse,
    Bool.true_and, Bool.and_true, Bool.false_and, Bool.and_false,
    Bool.or_false, Bool.false_or, Bool.not_true, Bool.not_false,
    Bool.false_eq_true, if_false, if_true, ite_false, ite_true]
  simp [List.mem_cons]

/-- Witness for `C7_inherits_edge` at a concrete input. -/
theorem C7_witness :
    ("m.py::" ++ "A", "m.py::" ++ "B", "inherits")
      ∈ (build_graph [c7File "A" "B"]).edges :=
  C7_inherits_edge "A" "B" (by decide)

/-! ## Claims C8 and C9: shared machinery -/

theorem preservesVar_refl (mod k : String) (G : Graph) : PreservesVar mod k G G :=
  ⟨fun _ => rfl, fun h => h, fun _ h => h⟩

theorem preservesVar_trans {mod k : String} {a b c : Graph}
    (h1 : PreservesVar mod k a b) (h2 : PreservesVar mod k b c) :
    PreservesVar mod k a c := by
  refine ⟨fun hh => ?_, fun hh => h2.2.1 (h1.2.1 hh), fun rel hm => h2.2.2 rel (h1.2.2 rel hm)⟩
  rw [h2.1 (h1.2.1 hh), h1.1 hh]

theorem mod_ne_scoped (mod s : String) : mod ≠ mod ++ "::" ++ s := by
  apply ne_of_length_ne
  rw [String.length_append, String.length_append]
  have h2 : ("::" : String).length = 2 := rfl
  omega

/-- The single literal-expansion child step (`addNode` of one child plus the
guarded `dict-item`/`seq-item` edge) preserves a plain variable node and its
`var` edge, provided the child key differs from the variable's key. -/
theorem childStep_preservesVar (mod k parentLabel childName : String)
    (a : Attrs) (relName : String)
    (hkc : k ≠ childName)
    (hmodp : mod ≠ parentLabel)
    (hmodc : mod ≠ childName) (G : Graph) :
    PreservesVar mod k G
      (if hasNode (addNode G childName a) parentLabel
       then addEdge (addNode G childName a) parentLabel childName relName
       else addNode G childName a) := by
  have hpair : ∀ rel, samePair (mod, k, rel) parentLabel childName = false := by
    intro rel
    simp only [samePair]
    rw [str_beq_false hmodp, str_beq_false hmodc]
    simp
  have hbase : PreservesVar mod k G (addNode G childName a) := by
    refine ⟨fun hh => getAttrs_addNode_other a hkc, fun hh => hasNode_addNode_mono _ a hh,
      fun rel hm => ?_⟩
    show (mod, k, rel) ∈ (addNode G childName a).edges
    rw [edges_addNode]
    exact hm
  split
  · refine preservesVar_trans hbase ⟨fun hh => ?_, fun hh => ?_, fun rel hm => ?_⟩
    · exact getAttrs_addEdge_present _ _ _ hh
    · exact hasNode_addEdge_mono _ _ _ hh
    · exact mem_edges_addEdge _ _ _ hm (hpair rel)
  · exact hbase

theorem literalStep_preservesVar (mod k : String) (n : PyNode)
    (hk : ∀ s, ('.' ∈ s.data ∨ '[' ∈ s.data) → k ≠ mod ++ "::" ++ s) :
    ∀ G, PreservesVar mod k G (literalStep mod G n) := by
  intro G
  have hdot : ∀ parent kLabel : String,
      k ≠ mod ++ "::" ++ parent ++ "." ++ kLabel := by
    intro parent kLabel
    have hmem : ('.' : Char) ∈ (parent ++ "." ++ kLabel).data :=
      mem_data_append_left (mem_data_append_right (by decide))
    have := hk (parent ++ "." ++ kLabel) (Or.inl hmem)
    intro he
    apply this
    rw [he]
    simp [String.append_assoc]
  have hbr : ∀ (idx : Nat) (t : String),
      k ≠ mod ++ "::" ++ t ++ "[" ++ toString idx ++ "]" := by
    intro idx t
    have hmem : ('[' : Char) ∈ (t ++ "[" ++ toString idx ++ "]").data :=
      mem_data_append_left (mem_data_append_left (mem_data_append_right (by decide)))
    have := hk (t ++ "[" ++ toString idx ++ "]") (Or.inr hmem)
    intro he
    apply this
    rw [he]
    simp [String.append_assoc]
  have hmodc_dot : ∀ parent kLabel : String,
      mod ≠ mod ++ "::" ++ parent ++ "." ++ kLabel := by
    intro parent kLabel
    apply ne_of_length_ne
    simp only [String.length_append]
    have e1 : ("::" : String).length = 2 := rfl
    have e2 : ("." : String).length = 1 := rfl
    omega
  have hmodc_br : ∀ (idx : Nat) (t : String),
      mod ≠ mod ++ "::" ++ t ++ "[" ++ toString idx ++ "]" := by
    intro idx t
    apply ne_of_length_ne
    simp only [String.length_append]
    have e1 : ("::" : String).length = 2 := rfl
    have e2 : ("[" : String).length = 1 := rfl
    omega
  cases n with
  | moduleN body => exact preservesVar_refl mod k G
  | expr e => exact preservesVar_refl mod k G
  | stmt s =>
      cases s with
      | assign targets value =>
          cases value with
          | dictE items =>
              refine foldl_rel _ (preservesVar_refl mod k)
                (fun a b c => preservesVar_trans) targets (fun G t _ => ?_) G
              cases t with
              | name parent =>
                  refine foldl_rel _ (preservesVar_refl mod k)
                    (fun a b c => preservesVar_trans) items (fun G kv _ => ?_) G
                  exact childStep_preservesVar mod k _ _ _ _
                    (hdot parent (unparse kv.1)) (mod_ne_scoped mod parent)
                    (hmodc_dot parent (unparse kv.1)) G
              | const v => exact preservesVar_refl mod k G
              | listE es => exact preservesVar_refl mod k G
              | dictE its => exact preservesVar_refl mod k G
              | setE es => exact preservesVar_refl mod k G
              | tupleE es => exact preservesVar_refl mod k G
              | call g as => exact preservesVar_refl mod k G
              | attr v a => exact preservesVar_refl mod k G
              | otherE r => exact preservesVar_refl mod k G
          | listE es =>
              refine foldl_rel _ (preservesVar_refl mod k)
                (fun a b c => preservesVar_trans) targets (fun G t _ => ?_) G
              cases t with
              | name parent =>
                  refine foldl_rel _ (preservesVar_refl mod k)
                    (fun a b c => preservesVar_trans) es.enum (fun G p _ => ?_) G
                  exact childStep_preservesVar mod k _ _ _ _
                    (hbr p.1 parent) (mod_ne_scoped mod parent)
                    (hmodc_br p.1 parent) G
              | const v => exact preservesVar_refl mod k G
              | listE es2 => exact preservesVar_refl mod k G
              | dictE its => exact preservesVar_refl mod k G
              | setE es2 => exact preservesVar_refl mod k G
              | tupleE es2 => exact preservesVar_refl mod k G
              | call g as => exact preservesVar_refl mod k G
              | attr v a => exact preservesVar_refl mod k G
              | otherE r => exact preservesVar_refl mod k G
          | setE es =>
              refine foldl_rel _ (preservesVar_refl mod k)
                (fun a b c => preservesVar_trans) targets (fun G t _ => ?_) G
              cases t with
              | name parent =>
                  refine foldl_rel _ (preservesVar_refl mod k)
                    (fun a b c => preservesVar_trans) es.enum (fun G p _ => ?_) G
                  exact childStep_preservesVar mod k _ _ _ _
                    (hbr p.1 parent) (mod_ne_scoped mod parent)
                    (hmodc_br p.1 parent) G
              | const v => exact preservesVar_refl mod k G
              | listE es2 => exact preservesVar_refl mod k G
              | dictE its => exact preservesVar_refl mod k G
              | setE es2 => exact preservesVar_refl mod k G
              | tupleE es2 => exact preservesVar_refl mod k G
              | call g as => exact preservesVar_refl mod k G
              | attr v a => exact preservesVar_refl mod k G
              | otherE r => exact preservesVar_refl mod k G
          | tupleE es =>
              refine foldl_rel _ (preservesVar_refl mod k)
                (fun a b c => preservesVar_trans) targets (fun G t _ => ?_) G
              cases t with
              | name parent =>
                  refine foldl_rel _ (preservesVar_refl mod k)
                    (fun a b c => preservesVar_trans) es.enum (fun G p _ => ?_) G
                  exact childStep_preservesVar mod k _ _ _ _
                    (hbr p.1 parent) (mod_ne_scoped mod parent)
                    (hmodc_br p.1 parent) G
              | const v => exact preservesVar_refl mod k G
              | listE es2 => exact preservesVar_refl mod k G
              | dictE its => exact preservesVar_refl mod k G
              | setE es2 => exact preservesVar_refl mod k G
              | tupleE es2 => exact preservesVar_refl mod k G
              | call g as => exact preservesVar_refl mod k G
              | attr v a => exact preservesVar_refl mod k G
              | otherE r => exact preservesVar_refl mod k G
          | name id => exact preservesVar_refl mod k G
          | const v => exact preservesVar_refl mod k G
          | call g as => exact preservesVar_refl mod k G
          | attr v a => exact preservesVar_refl mod k G
          | otherE r => exact preservesVar_refl mod k G
      | importS items => exact preservesVar_refl mod k G
      | importFrom m items => exact preservesVar_refl mod k G
      | classDef a b c d e f => exact preservesVar_refl mod k G
      | funcDef a b c d e f => exact preservesVar_refl mod k G
      | annAssign t ann v? => exact preservesVar_refl mod k G
      | exprS e => exact preservesVar_refl mod k G
      | otherS => exact preservesVar_refl mod k G

/-! ## Claim C9 -/

set_option maxHeartbeats 4000000 in
/-- C9: in `c9File x1 x2 y v1 v2` (the module `x1 = x2 = v1` then `y = v2`),
every plain-name assignment target becomes a variable node keyed
`m.py::<name>` whose kind is `guess_type` of the right-hand expression, with a
`var` edge from the module node; the two targets of the first assignment each
get their own node and edge. -/
theorem C9_assignment_kinds (x1 x2 y : String) (v1 v2 : Expr)
    (hp1 : isPlainName x1 = true) (hp2 : isPlainName x2 = true)
    (hp3 : isPlainName y = true)
    (h12 : x1 ≠ x2) (h13 : x1 ≠ y) (h23 : x2 ≠ y)
    (hv1 : callFree v1 = true) (hv2 : callFree v2 = true) :
    getKind (build_graph [c9File x1 x2 y v1 v2]) ("m.py::" ++ x1) = some (guess_type v1)
    ∧ getKind (build_graph [c9File x1 x2 y v1 v2]) ("m.py::" ++ x2) = some (guess_type v1)
    ∧ getKind (build_graph [c9File x1 x2 y v1 v2]) ("m.py::" ++ y) = some (guess_type v2)
    ∧ ("m.py", "m.py::" ++ x1, "var") ∈ (build_graph [c9File x1 x2 y v1 v2]).edges
    ∧ ("m.py", "m.py::" ++ x2, "var") ∈ (build_graph [c9File x1 x2 y v1 v2]).edges
    ∧ ("m.py", "m.py::" ++ y, "var") ∈ (build_graph [c9File x1 x2 y v1 v2]).edges := by
  have hm : ("m.py" ++ "::" : String) = "m.py::" := by decide
  have hb1 : ("m.py" == "m.py::" ++ x1) = false := str_beq_false (mpy_ne_class x1)
  have hb2 : ("m.py" == "m.py::" ++ x2) = false := str_beq_false (mpy_ne_class x2)
  have hb3 : ("m.py" == "m.py::" ++ y) = false := str_beq_false (mpy_ne_class y)
  have hb12 : ("m.py::" ++ x1 == "m.py::" ++ x2) = false :=
    str_beq_false (ne_append_of_ne h12)
  have hb13 : ("m.py::" ++ x1 == "m.py::" ++ y) = false :=
    str_beq_false (ne_append_of_ne h13)
  have hb23 : ("m.py::" ++ x2 == "m.py::" ++ y) = false :=
    str_beq_false (ne_append_of_ne h23)
  -- the expression layer of the walk: hereditarily call-free nodes
  have hE : ∀ n ∈ ([.expr (.name x1), .expr (.name x2), .expr v1,
      .expr (.name y), .expr v2] : List PyNode), FreeExprNode n := by
    intro n hn
    rcases List.mem_cons.mp hn with rfl | hn
    · exact ⟨.name x1, rfl, rfl⟩
    rcases List.mem_cons.mp hn with rfl | hn
    · exact ⟨.name x2, rfl, rfl⟩
    rcases List.mem_cons.mp hn with rfl | hn
    · exact ⟨v1, rfl, hv1⟩
    rcases List.mem_cons.mp hn with rfl | hn
    · exact ⟨.name y, rfl, rfl⟩
    rcases List.mem_cons.mp hn with rfl | hn
    · exact ⟨v2, rfl, hv2⟩
    cases hn
  have hfreeE : ∀ n ∈ walk ([.expr (.name x1), .expr (.name x2), .expr v1,
      .expr (.name y), .expr v2] : List PyNode), FreeExprNode n :=
    walk_forall freeExprNode_children _ _ (Nat.le_refl _) hE
  -- the walk of the module splits into the concrete prefix and that layer
  have hws : walk [PyNode.moduleN [.assign [.name x1, .name x2] v1,
        .assign [.name y] v2]] =
      [PyNode.moduleN [.assign [.name x1, .name x2] v1, .assign [.name y] v2],
       .stmt (.assign [.name x1, .name x2] v1), .stmt (.assign [.name y] v2)]
      ++ walk [.expr (.name x1), .expr (.name x2), .expr v1,
               .expr (.name y), .expr v2] := by
    rw [walk_cons]
    simp only [children, List.map_cons, List.map_nil, List.nil_append]
    rw [walk_cons]
    simp only [children, List.map_cons, List.map_nil, List.nil_append,
      List.cons_append, List.append_nil]
    rw [walk_cons]
    simp only [children, List.map_cons, List.map_nil, List.nil_append,
      List.cons_append, List.append_nil]
  simp only [build_graph, List.foldl_cons, List.foldl_nil,
    build_graph_from_file, c9File,
    show basename "m.py" = "m.py" from rfl, hws, hm,
    List.foldl_append,
    hasNode, lookupA, Graph.empty, addNode, mergeAttrs,
    Option.isSome_none, Option.isSome_some,
    Bool.false_eq_true, if_false, if_true, ite_false, ite_true]
  have hifold : ∀ G : Graph, List.foldl (importStep "m.py") G
      (walk [.expr (.name x1), .expr (.name x2), .expr v1, .expr (.name y), .expr v2]) = G :=
    @foldl_noop PyNode (importStep "m.py") _ (fun G n hn => by
      obtain ⟨e, rfl, _⟩ := hfreeE n hn
      exact importStep_expr _ _ _)
  have hcfold : ∀ (src : List String) (G : Graph), List.foldl (classStep "m.py" src) G
      (walk [.expr (.name x1), .expr (.name x2), .expr v1, .expr (.name y), .expr v2]) = G :=
    fun src => @foldl_noop PyNode (classStep "m.py" src) _ (fun G n hn => by
      obtain ⟨e, rfl, _⟩ := hfreeE n hn
      exact classStep_expr _ _ _ _)
  have hvfold : ∀ (imps : List String) (G : Graph),
      List.foldl (varsCallsStep "m.py" imps) G
      (walk [.expr (.name x1), .expr (.name x2), .expr v1, .expr (.name y), .expr v2]) = G :=
    fun imps => @foldl_noop PyNode (varsCallsStep "m.py" imps) _ (fun G n hn => by
      obtain ⟨e, rfl, hfr⟩ := hfreeE n hn
      exact varsCallsStep_expr_callFree _ _ _ hfr)
  have hlfold : ∀ G : Graph, List.foldl (literalStep "m.py") G
      (walk [.expr (.name x1), .expr (.name x2), .expr v1, .expr (.name y), .expr v2]) = G :=
    @foldl_noop PyNode (literalStep "m.py") _ (fun G n hn => by
      obtain ⟨e, rfl, _⟩ := hfreeE n hn
      exact literalStep_expr _ _ _)
  rw [hifold, hcfold, hvfold, hlfold]
  simp only [List.foldl_cons, List.foldl_nil,
    importStep, classStep, topFuncStep, varsCallsStep,
    hasNode, lookupA, getKind, getAttrs, addNode, mergeAttrs,
    addEdge, addEdgeRaw, ensureNode, samePair,
    List.nil_append, List.cons_append, List.append_nil,
    List.any_nil, List.any_cons, List.find?_nil, List.find?_cons,
    List.filterMap_nil, List.filterMap_cons,
    hm, hb1, hb2, hb3, hb12, hb13, hb23, beq_self_eq_true,
    Option.isSome_none, Option.isSome_some, Option.some_orElse, Option.none_orElse,
    Bool.true_and, Bool.and_true, Bool.false_and, Bool.and_false,
    Bool.or_false, Bool.false_or, Bool.not_true, Bool.not_false,
    Bool.false_eq_true, if_false, if_true, ite_false, ite_true]
  have hkgen : ∀ z : String, isPlainName z = true →
      ∀ s, ('.' ∈ s.data ∨ '[' ∈ s.data) → ("m.py::" ++ z) ≠ "m.py" ++ "::" ++ s := by
    intro z hz s hs he
    rw [show ("m.py" ++ "::" : String) = "m.py::" from by decide] at he
    have hzs := append_cancel_left_str he
    subst hzs
    rcases hs with hd | hb
    · exact plain_no_dot hz hd
    · exact plain_no_bracket hz hb
  have hstep : ∀ k : String,
      (∀ s, ('.' ∈ s.data ∨ '[' ∈ s.data) → k ≠ "m.py" ++ "::" ++ s) →
      ∀ G, PreservesVar "m.py" k G
        (literalStep "m.py" (literalStep "m.py" (literalStep "m.py" G
          (PyNode.moduleN [Stmt.assign [Expr.name x1, Expr.name x2] v1,
            Stmt.assign [Expr.name y] v2]))
          (PyNode.stmt (Stmt.assign [Expr.name x1, Expr.name x2] v1)))
          (PyNode.stmt (Stmt.assign [Expr.name y] v2))) := by
    intro k hk G
    exact preservesVar_trans (literalStep_preservesVar _ _ _ hk G)
      (preservesVar_trans (literalStep_preservesVar _ _ _ hk _)
        (literalStep_preservesVar _ _ _ hk _))
  have main : ∀ (G : Graph) (k : String) (gv : String),
      (∀ s, ('.' ∈ s.data ∨ '[' ∈ s.data) → k ≠ "m.py" ++ "::" ++ s) →
      hasNode G k = true → getKind G k = some gv →
      getKind
        (literalStep "m.py" (literalStep "m.py" (literalStep "m.py" G
          (PyNode.moduleN [Stmt.assign [Expr.name x1, Expr.name x2] v1,
            Stmt.assign [Expr.name y] v2]))
          (PyNode.stmt (Stmt.assign [Expr.name x1, Expr.name x2] v1)))
          (PyNode.stmt (Stmt.assign [Expr.name y] v2))) k = some gv := by
    intro G k gv hk hn hkind
    have h := hstep k hk G
    simp only [getKind] at hkind ⊢
    rw [h.1 hn]
    exact hkind
  refine ⟨?_, ?_, ?_, ?_, ?_, ?_⟩
  · exact main _ _ _ (hkgen x1 hp1) (by simp [hasNode, lookupA, hb1])
      (by simp [getKind, getAttrs, lookupA, hb1])
  · exact main _ _ _ (hkgen x2 hp2) (by simp [hasNode, lookupA, hb2, hb12])
      (by simp [getKind, getAttrs, lookupA, hb2, hb12])
  · exact main _ _ _ (hkgen y hp3) (by simp [hasNode, lookupA, hb3, hb13, hb23])
      (by simp [getKind, getAttrs, lookupA, hb3, hb13, hb23])
  · exact (hstep _ (hkgen x1 hp1) _).2.2 "var" (by simp)
  · exact (hstep _ (hkgen x2 hp2) _).2.2 "var" (by simp)
  · exact (hstep _ (hkgen y hp3) _).2.2 "var" (by simp)

/-- Witness for `C9_assignment_kinds`: `x, x2 = 1` and `y = "s"` give node `x`
kind `int` and node `y` kind `str`, each with a `var` edge from the module. -/
theorem C9_witness :
    getKind (build_graph [c9File "x" "x2" "y" (.const (.intV 1)) (.const (.strV "s"))])
      ("m.py::" ++ "x") = some "int"
    ∧ getKind (build_graph [c9File "x" "x2" "y" (.const (.intV 1)) (.const (.strV "s"))])
      ("m.py::" ++ "x2") = some "int"
    ∧ getKind (build_graph [c9File "x" "x2" "y" (.const (.intV 1)) (.const (.strV "s"))])
      ("m.py::" ++ "y") = some "str"
    ∧ ("m.py", "m.py::" ++ "x", "var")
      ∈ (build_graph [c9File "x" "x2" "y" (.const (.intV 1)) (.const (.strV "s"))]).edges
    ∧ ("m.py", "m.py::" ++ "x2", "var")
      ∈ (build_graph [c9File "x" "x2" "y" (.const (.intV 1)) (.const (.strV "s"))]).edges
    ∧ ("m.py", "m.py::" ++ "y", "var")
      ∈ (build_graph [c9File "x" "x2" "y" (.const (.intV 1)) (.const (.strV "s"))]).edges :=
  C9_assignment_kinds "x" "x2" "y" (.const (.intV 1)) (.const (.strV "s"))
    (by decide) (by decide) (by decide) (by decide) (by decide) (by decide) rfl rfl

/-! ## Claim C8 -/

theorem self_ne_append_dot (p s : String) : p ≠ p ++ "." ++ s := by
  apply ne_of_length_ne
  rw [String.length_append, String.length_append]
  have h1 : ("." : String).length = 1 := rfl
  omega

theorem pair_absent_of_fresh {G : Graph} (hwf : wellFormedB G = true) {cN : String}
    (hfresh : hasNode G cN = false) (pL : String) :
    (G.edges.any fun e => samePair e pL cN) = false := by
  cases hx : (G.edges.any fun e => samePair e pL cN) with
  | false => rfl
  | true =>
      exfalso
      obtain ⟨e, he, hpe⟩ := List.any_eq_true.mp hx
      unfold wellFormedB at hwf
      have hwf2 : (hasNode G e.1 && hasNode G e.2.1) = true :=
        List.all_eq_true.mp hwf e he
      rw [Bool.and_eq_true] at hwf2
      simp only [samePair, Bool.or_eq_true, Bool.and_eq_true] at hpe
      rcases hpe with ⟨h1, h2⟩ | ⟨h1, h2⟩
      · rw [eq_of_beq h2] at hwf2
        rw [hwf2.2] at hfresh
        cases hfresh
      · rw [eq_of_beq h1] at hwf2
        rw [hwf2.1] at hfresh
        cases hfresh

theorem nodes_addEdge_present {G : Graph} {u v : String} (r : String)
    (hu : hasNode G u = true) (hv : hasNode G v = true) :
    (addEdge G u v r).nodes = G.nodes := by
  unfold addEdge
  rw [ensureNode_of_hasNode hu, ensureNode_of_hasNode hv, nodes_addEdgeRaw]

theorem hasNode_addEdge_present_congr {G : Graph} (u v r k : String)
    (hu : hasNode G u = true) (hv : hasNode G v = true) :
    hasNode (addEdge G u v r) k = hasNode G k := by
  unfold hasNode
  rw [nodes_addEdge_present r hu hv]

theorem dictChildStep_eq {pL parent mod : String} {G : Graph} (kv : Expr × Expr)
    (hG : hasNode G pL = true) :
    dictChildStep pL parent mod G kv =
      addEdge (addNode G (pL ++ "." ++ unparse kv.1)
        { kind := some (guess_type kv.2),
          label := some (parent ++ "." ++ unparse kv.1), module := some mod })
        pL (pL ++ "." ++ unparse kv.1) "dict-item" := by
  simp only [dictChildStep]
  split
  · rfl
  next hneg => exact absurd (hasNode_addNode_mono _ _ hG) hneg

theorem c8Step_preservesVar (pL parent mod k : String) (kv : Expr × Expr)
    (hkc : k ≠ pL ++ "." ++ unparse kv.1) :
    ∀ G, PreservesVar pL k G (dictChildStep pL parent mod G kv) := by
  intro G
  have hpair : ∀ rel, samePair (pL, k, rel) pL (pL ++ "." ++ unparse kv.1) = false := by
    intro rel
    simp only [samePair]
    rw [str_beq_false hkc, str_beq_false (self_ne_append_dot pL (unparse kv.1))]
    simp
  have hbase : PreservesVar pL k G (addNode G (pL ++ "." ++ unparse kv.1)
      { kind := some (guess_type kv.2),
        label := some (parent ++ "." ++ unparse kv.1), module := some mod }) := by
    refine ⟨fun hh => getAttrs_addNode_other _ hkc, fun hh => hasNode_addNode_mono _ _ hh,
      fun rel hm => ?_⟩
    show (pL, k, rel) ∈ (addNode _ _ _).edges
    rw [edges_addNode]
    exact hm
  simp only [dictChildStep]
  split
  · refine preservesVar_trans hbase ⟨fun hh => ?_, fun hh => ?_, fun rel hm => ?_⟩
    · exact getAttrs_addEdge_present _ _ _ hh
    · exact hasNode_addEdge_mono _ _ _ hh
    · exact mem_edges_addEdge _ _ _ hm (hpair rel)
  · exact hbase

theorem c8Step_facts (pL parent mod : String) {G : Graph} (kv : Expr × Expr)
    (hG : hasNode G pL = true) (hwf : wellFormedB G = true)
    (hfresh : hasNode G (pL ++ "." ++ unparse kv.1) = false) :
    getKind (dictChildStep pL parent mod G kv) (pL ++ "." ++ unparse kv.1)
      = some (guess_type kv.2)
    ∧ (pL, pL ++ "." ++ unparse kv.1, "dict-item")
      ∈ (dictChildStep pL parent mod G kv).edges
    ∧ hasNode (dictChildStep pL parent mod G kv) (pL ++ "." ++ unparse kv.1) = true := by
  rw [dictChildStep_eq kv hG]
  refine ⟨?_, ?_, ?_⟩
  · show (getAttrs _ _).bind Attrs.kind = _
    rw [getAttrs_addEdge_present _ _ _ (hasNode_addNode_self _ _ _), getAttrs_addNode_self]
    have hnone : getAttrs G (pL ++ "." ++ unparse kv.1) = none :=
      lookupA_none_of_hasNode_false hfresh
    rw [hnone]
    rfl
  · have hany : ((addNode G (pL ++ "." ++ unparse kv.1)
        { kind := some (guess_type kv.2),
          label := some (parent ++ "." ++ unparse kv.1),
          module := some mod }).edges.any
        fun e => samePair e pL (pL ++ "." ++ unparse kv.1)) = false := by
      rw [edges_addNode]
      exact pair_absent_of_fresh hwf hfresh pL
    rw [addEdge_new _ _ _ hany]
    exact List.mem_append_right _ (List.mem_singleton_self _)
  · exact hasNode_addEdge_mono _ _ _ (hasNode_addNode_self _ _ _)

theorem dictChildStep_fresh_other {pL parent mod : String} {G : Graph}
    (kv0 kv' : Expr × Expr) (hG : hasNode G pL = true)
    (hne : (pL ++ "." ++ unparse kv'.1) ≠ (pL ++ "." ++ unparse kv0.1))
    (hf : hasNode G (pL ++ "." ++ unparse kv'.1) = false) :
    hasNode (dictChildStep pL parent mod G kv0) (pL ++ "." ++ unparse kv'.1) = false := by
  rw [dictChildStep_eq kv0 hG,
    hasNode_addEdge_present_congr _ _ _ _
      (hasNode_addNode_mono _ _ hG) (hasNode_addNode_self _ _ _),
    hasNode_addNode_other _ hne]
  exact hf

theorem dictFold_facts (pL parent mod : String) :
    ∀ (kvs : List (Expr × Expr)) (G : Graph),
    hasNode G pL = true → wellFormedB G = true →
    (∀ kv ∈ kvs, hasNode G (pL ++ "." ++ unparse kv.1) = false) →
    List.Pairwise (fun a b : Expr × Expr => unparse a.1 ≠ unparse b.1) kvs →
    ∀ kv ∈ kvs,
      getKind (kvs.foldl (dictChildStep pL parent mod) G) (pL ++ "." ++ unparse kv.1)
        = some (guess_type kv.2)
      ∧ (pL, pL ++ "." ++ unparse kv.1, "dict-item")
        ∈ (kvs.foldl (dictChildStep pL parent mod) G).edges := by
  intro kvs
  induction kvs with
  | nil => intro G _ _ _ _ kv hkv; cases hkv
  | cons kv0 rest ih =>
      intro G hG hwf hfresh hnd kv hkv
      rw [List.foldl_cons]
      have hhead := (List.pairwise_cons.mp hnd).1
      have hndrest := (List.pairwise_cons.mp hnd).2
      have hG1 : hasNode (dictChildStep pL parent mod G kv0) pL = true :=
        (c8Step_preservesVar pL parent mod pL kv0 (self_ne_append_dot _ _) G).2.1 hG
      have hwf1 : wellFormedB (dictChildStep pL parent mod G kv0) = true := by
        rw [dictChildStep_eq kv0 hG]
        exact wf_addEdge _ _ _ (wf_addNode _ _ hwf)
      have hfresh1 : ∀ kv' ∈ rest,
          hasNode (dictChildStep pL parent mod G kv0)
            (pL ++ "." ++ unparse kv'.1) = false := by
        intro kv' hkv'
        refine dictChildStep_fresh_other kv0 kv' hG
          (fun he => (hhead kv' hkv') (append_cancel_left_str he).symm)
          (hfresh kv' (List.mem_cons_of_mem _ hkv'))
      rcases List.mem_cons.mp hkv with rfl | hkv'
      · have hest := c8Step_facts pL parent mod kv hG hwf (hfresh kv (List.mem_cons_self _ _))
        have hpres := @foldl_rel (Expr × Expr)
          (PreservesVar pL (pL ++ "." ++ unparse kv.1))
          (dictChildStep pL parent mod)
          (preservesVar_refl pL _)
          (fun a b c h1 h2 => preservesVar_trans h1 h2)
          rest
          (fun G' kv' hkv' => c8Step_preservesVar pL parent mod _ kv'
            (fun he => (hhead kv' hkv') (append_cancel_left_str he)) G')
          (dictChildStep pL parent mod G kv)
        refine ⟨?_, hpres.2.2 "dict-item" hest.2.1⟩
        show (getAttrs _ _).bind Attrs.kind = _
        rw [hpres.1 hest.2.2]
        exact hest.1
      · exact ih (dictChildStep pL parent mod G kv0) hG1 hwf1 hfresh1 hndrest kv hkv'

theorem literalStep_dict (mod parent : String) (items : List (Expr × Expr)) (G : Graph) :
    literalStep mod G (.stmt (.assign [.name parent] (.dictE items)))
      = items.foldl (dictChildStep (mod ++ "::" ++ parent) parent mod) G := rfl

set_option maxHeartbeats 4000000 in
/-- C8: in `c8File kvs` (the module `d = {kvs}` with pairwise-distinct
rendered keys and call-free key/value expressions), every dict item `(k, v)`
yields a child node keyed `m.py::d.<unparse k>` whose kind is `guess_type v`,
joined to the parent variable node `m.py::d` by a `dict-item` edge. -/
theorem C8_dict_literal_expansion (kvs : List (Expr × Expr))
    (hcf : callFreeItems kvs = true)
    (hnd : List.Pairwise (fun a b : Expr × Expr => unparse a.1 ≠ unparse b.1) kvs) :
    ∀ kv ∈ kvs,
      getKind (build_graph [c8File kvs]) ("m.py::d" ++ "." ++ unparse kv.1)
        = some (guess_type kv.2)
      ∧ ("m.py::d", "m.py::d" ++ "." ++ unparse kv.1, "dict-item")
        ∈ (build_graph [c8File kvs]).edges := by
  intro kv hkv
  have hm : ("m.py" ++ "::" : String) = "m.py::" := by decide
  have hmd : ("m.py::" ++ "d" : String) = "m.py::d" := by decide
  have hbd : ("m.py" == "m.py::d") = false := by decide
  have hdbm : ("m.py::d" == "m.py") = false := by decide
  have hE : ∀ n ∈ ([.expr (.name "d"), .expr (.dictE kvs)] : List PyNode),
      FreeExprNode n := by
    intro n hn
    rcases List.mem_cons.mp hn with rfl | hn
    · exact ⟨.name "d", rfl, rfl⟩
    rcases List.mem_cons.mp hn with rfl | hn
    · exact ⟨.dictE kvs, rfl, hcf⟩
    cases hn
  have hfreeE : ∀ n ∈ walk ([.expr (.name "d"), .expr (.dictE kvs)] : List PyNode),
      FreeExprNode n := walk_forall freeExprNode_children _ _ (Nat.le_refl _) hE
  have hws : walk [PyNode.moduleN [.assign [.name "d"] (.dictE kvs)]] =
      [PyNode.moduleN [.assign [.name "d"] (.dictE kvs)],
       .stmt (.assign [.name "d"] (.dictE kvs))]
      ++ walk [.expr (.name "d"), .expr (.dictE kvs)] := by
    rw [walk_cons]
    simp only [children, List.map_cons, List.map_nil, List.nil_append]
    rw [walk_cons]
    simp only [children, List.map_cons, List.map_nil, List.nil_append,
      List.cons_append, List.append_nil]
  have hifold : ∀ G : Graph, List.foldl (importStep "m.py") G
      (walk [.expr (.name "d"), .expr (.dictE kvs)]) = G :=
    @foldl_noop PyNode (importStep "m.py") _ (fun G n hn => by
      obtain ⟨e, rfl, _⟩ := hfreeE n hn
      exact importStep_expr _ _ _)
  have hcfold : ∀ (src : List String) (G : Graph), List.foldl (classStep "m.py" src) G
      (walk [.expr (.name "d"), .expr (.dictE kvs)]) = G :=
    fun src => @foldl_noop PyNode (classStep "m.py" src) _ (fun G n hn => by
      obtain ⟨e, rfl, _⟩ := hfreeE n hn
      exact classStep_expr _ _ _ _)
  have hvfold : ∀ (imps : List String) (G : Graph),
      List.foldl (varsCallsStep "m.py" imps) G
      (walk [.expr (.name "d"), .expr (.dictE kvs)]) = G :=
    fun imps => @foldl_noop PyNode (varsCallsStep "m.py" imps) _ (fun G n hn => by
      obtain ⟨e, rfl, hfr⟩ := hfreeE n hn
      exact varsCallsStep_expr_callFree _ _ _ hfr)
  have hlfold : ∀ G : Graph, List.foldl (literalStep "m.py") G
      (walk [.expr (.name "d"), .expr (.dictE kvs)]) = G :=
    @foldl_noop PyNode (literalStep "m.py") _ (fun G n hn => by
      obtain ⟨e, rfl, _⟩ := hfreeE n hn
      exact literalStep_expr _ _ _)
  simp only [build_graph, List.foldl_cons, List.foldl_nil,
    build_graph_from_file, c8File,
    show basename "m.py" = "m.py" from rfl, hws, hm,
    List.foldl_append,
    hasNode, lookupA, Graph.empty, addNode, mergeAttrs,
    Option.isSome_none, Option.isSome_some,
    Bool.false_eq_true, if_false, if_true, ite_false, ite_true]
  rw [hifold, hcfold, hvfold, hlfold]
  simp only [List.foldl_cons, List.foldl_nil,
    importStep, classStep, topFuncStep, varsCallsStep, literalStep_module,
    show guess_type (Expr.dictE kvs) = "dict" from rfl,
    hasNode, lookupA, addNode, mergeAttrs,
    addEdge, addEdgeRaw, ensureNode, samePair,
    List.nil_append, List.cons_append, List.append_nil,
    List.any_nil, List.any_cons, List.find?_nil, List.find?_cons,
    List.filterMap_nil, List.filterMap_cons,
    hm, hmd, hbd, hdbm, beq_self_eq_true,
    Option.isSome_none, Option.isSome_some, Option.some_orElse, Option.none_orElse,
    Bool.true_and, Bool.and_true, Bool.false_and, Bool.and_false,
    Bool.or_false, Bool.false_or, Bool.not_true, Bool.not_false,
    Bool.false_eq_true, if_false, if_true, ite_false, ite_true]
  rw [literalStep_dict]
  rw [show ("m.py" ++ "::" ++ "d" : String) = "m.py::d" from by decide]
  refine dictFold_facts "m.py::d" "d" "m.py" kvs _ ?_ ?_ ?_ hnd kv hkv
  · decide
  · decide
  · intro kv' hkv'
    have hx1 : ∀ s : String, ("m.py" == "m.py::d" ++ "." ++ s) = false := fun s =>
      str_beq_false (by
        apply ne_of_length_ne
        simp only [String.length_append]
        have h4 : ("m.py" : String).length = 4 := rfl
        have h7 : ("m.py::d" : String).length = 7 := rfl
        have h1 : ("." : String).length = 1 := rfl
        omega)
    have hx2 : ∀ s : String, ("m.py::d" == "m.py::d" ++ "." ++ s) = false := fun s =>
      str_beq_false (by
        apply ne_of_length_ne
        simp only [String.length_append]
        have h7 : ("m.py::d" : String).length = 7 := rfl
        have h1 : ("." : String).length = 1 := rfl
        omega)
    simp only [hasNode, lookupA, hx1, hx2, if_false, Bool.false_eq_true,
      ite_false, Option.isSome_none]

/-- Witness for `C8_dict_literal_expansion`: `d = {"k": [1, 2]}` yields the
child node `m.py::d.'k'` of kind `list` with a `dict-item` edge from
`m.py::d`. -/
theorem C8_witness :
    getKind (build_graph [c8File [(.const (.strV "k"),
        .listE [.const (.intV 1), .const (.intV 2)])]])
      ("m.py::d" ++ "." ++ unparse (.const (.strV "k"))) = some "list"
    ∧ ("m.py::d", "m.py::d" ++ "." ++ unparse (.const (.strV "k")), "dict-item")
      ∈ (build_graph [c8File [(.const (.strV "k"),
          .listE [.const (.intV 1), .const (.intV 2)])]]).edges :=
  C8_dict_literal_expansion
    [(.const (.strV "k"), .listE [.const (.intV 1), .const (.intV 2)])]
    (by decide) (by decide) _ (List.mem_cons_self _ _)

/-! ## Claim C10 -/

theorem basenameCore_no_slash : ∀ (cs acc : List Char), '/' ∉ acc → '/' ∉ basenameCore cs acc := by
  intro cs
  induction cs with
  | nil =>
      intro acc h
      simp only [basenameCore]
      intro hm
      exact h (List.mem_reverse.mp hm)
  | cons c cs ih =>
      intro acc h
      simp only [basenameCore]
      split
      · exact ih [] (by simp)
      next hc =>
        exact ih (c :: acc) (by
          intro hm
          rcases List.mem_cons.mp hm with he | hm2
          · exact hc he.symm
          · exact h hm2)

theorem no_slash_basename : ∀ p : String, '/' ∉ (basename p).data := by
  intro p
  show '/' ∉ basenameCore p.data []
  exact basenameCore_no_slash _ _ (by simp)

set_option maxHeartbeats 4000000 in
/-- C10: the module key is the path's basename (which contains no `/`), so
for two files with equal basenames (here `import os` at `p1` and `x = 1` at
`p2`) the built graph holds a single module node keyed `basename p1`, with
the second file's variable node and `var` edge attached under that same
key. -/
theorem C10_module_key_basename (p1 p2 : String)
    (hbase : basename p1 = basename p2) (hos : basename p1 ≠ "os") :
    (∀ p : String, '/' ∉ (basename p).data)
    ∧ (build_graph [c10FileA p1, c10FileB p2]).nodes.map Prod.fst
        = [basename p1, "os", basename p1 ++ "::" ++ "x"]
    ∧ (basename p1, basename p1 ++ "::" ++ "x", "var")
        ∈ (build_graph [c10FileA p1, c10FileB p2]).edges := by
  refine ⟨no_slash_basename, ?_⟩
  have hos1 : (basename p1 == "os") = false := str_beq_false hos
  have hos2 : ("os" == basename p1) = false :=
    str_beq_false fun he => hos he.symm
  have hbx1 : (basename p1 == basename p1 ++ "::" ++ "x") = false :=
    str_beq_false (mod_ne_scoped _ _)
  have hbx2 : ("os" == basename p1 ++ "::" ++ "x") = false :=
    str_beq_false (by
      apply ne_of_length_ne
      simp only [String.length_append]
      have h2 : ("os" : String).length = 2 := rfl
      have h2b : ("::" : String).length = 2 := rfl
      have h1 : ("x" : String).length = 1 := rfl
      omega)
  have hint : guess_type (Expr.const (ConstVal.intV 1)) = "int" := by decide
  simp only [build_graph, c10FileA, c10FileB, List.foldl_cons, List.foldl_nil,
    build_graph_from_file, ← hbase,
    walk_cons, walk_nil, children, List.map_nil, List.map_cons, List.append_nil,
    List.nil_append, List.cons_append, importedNamesOf, ImportItem.bound,
    importStep, classStep, topFuncStep, varsCallsStep, literalStep, hint,
    List.filterMap_nil, List.filterMap_cons,
    hasNode, lookupA, Graph.empty, addNode, mergeAttrs,
    addEdge, addEdgeRaw, ensureNode, samePair,
    List.any_nil, List.any_cons, List.find?_nil, List.find?_cons,
    hos1, hos2, hbx1, hbx2, beq_self_eq_true,
    Option.isSome_none, Option.isSome_some, Option.some_orElse,
    Option.none_orElse,
    Bool.true_and, Bool.and_true, Bool.false_and, Bool.and_false,
    Bool.or_false, Bool.false_or, Bool.not_true, Bool.not_false,
    Bool.false_eq_true, if_false, if_true, ite_false, ite_true]
  simp [List.mem_cons]

/-- Witness for `C10_module_key_basename` at `a/m.py` and `b/m.py`: one
module node `m.py` shared by both files, with the second file's variable
`m.py::x` attached under it. -/
theorem C10_witness :
    (∀ p : String, '/' ∉ (basename p).data)
    ∧ (build_graph [c10FileA "a/m.py", c10FileB "b/m.py"]).nodes.map Prod.fst
        = ["m.py", "os", "m.py" ++ "::" ++ "x"]
    ∧ ("m.py", "m.py" ++ "::" ++ "x", "var")
        ∈ (build_graph [c10FileA "a/m.py", c10FileB "b/m.py"]).edges :=
  C10_module_key_basename "a/m.py" "b/m.py" (by decide) (by decide)
